import Mathlib

/-!
Verification of the resilient feed-monitoring and alert engine
(`OS/01_SCRIPTS/power_watchdog_service.py`) against its specification.

The Python program is shallowly embedded below.  Pure functions become Lean
functions; the effectful parts (network fetch, seen-log append, status-file
write, notification delivery) are modelled by an explicit environment that
records whether each effect succeeds, and by states threaded through the
per-source and per-entry processing loops.  Strings are Lean strings; the
Python case-insensitive substring test `needle in title.lower()` is modelled
by an executable character-list search.  Machine-level details (timestamps,
log-file rotation, actual byte payloads) that no claim depends on are
abstracted: byte payloads are represented by their length together with the
entry list the parsing stage extracts from them.
-/

namespace PW

/-! ## Basic string helpers (Python semantics) -/

/-- Python `s.lower()` (ASCII case folding, which covers every keyword the
program is used with). -/
def pyLower (s : String) : String := String.mk (s.data.map Char.toLower)

/-- Python truthiness-based `a or b` for strings: `b` when `a` is empty. -/
def strOr (a b : String) : String := if a.isEmpty then b else a

/-- `prefixOfB n h = true` iff the list `n` is a prefix of `h`. -/
def prefixOfB : List Char → List Char → Bool
  | [], _ => true
  | _ :: _, [] => false
  | a :: as, b :: bs => (a == b) && prefixOfB as bs

/-- `occursIn n h = true` iff `n` occurs as a contiguous sublist of `h`;
this is Python's substring test `n in h`. -/
def occursIn (needle : List Char) : List Char → Bool
  | [] => needle.isEmpty
  | c :: rest => prefixOfB needle (c :: rest) || occursIn needle rest

/-- Python `needle in hay` on strings. -/
def containsSub (hay needle : String) : Bool := occursIn needle.data hay.data

/-- The mathematical statement `needle` is a case-insensitive substring of
`hay` (used to state the specification's matcher claims). -/
def SubstrCI (needle hay : String) : Prop :=
  ∃ l r, (pyLower hay).data = l ++ (pyLower needle).data ++ r

/-! ## Matcher (source lines 282-299)

`match_logic` is a JSON sub-object; `logic.get(key)` of a missing list yields
`[]` via `or []`, and the two `require_*` flags read `logic.get(k, True)`,
modelled by `Option Bool` with `none` for an absent key. -/

structure MatchLogic where
  locations : List String := []
  topics : List String := []
  negative_keywords : List String := []
  require_one_location : Option Bool := none
  require_one_topic : Option Bool := none
deriving DecidableEq

/-- Source function `match(title, cfg)` (lines 282-299); named `matchTitle`
because `match` is reserved in Lean.  The `cfg.get("match_logic") or {}`
lookup is modelled by passing the `MatchLogic` value (with the structure's
defaults standing for the empty dict). -/
def matchTitle (title : String) (logic : MatchLogic) : Bool :=
  let title_l := pyLower title
  let negatives := logic.negative_keywords.map pyLower
  if negatives.any (fun n => !n.isEmpty && containsSub title_l n) then false
  else
    let locations := logic.locations.map pyLower
    let topics := logic.topics.map pyLower
    let hit_loc := locations.any (fun k => !k.isEmpty && containsSub title_l k)
    let hit_topic := topics.any (fun k => !k.isEmpty && containsSub title_l k)
    if (logic.require_one_location.getD true) && !hit_loc then false
    else if (logic.require_one_topic.getD true) && !hit_topic then false
    else true

/-- The right-hand side of claim C2 exactly as the claim words it: no
configured negative keyword is a case-insensitive substring of the title,
and each enabled `require_*` flag demands at least one keyword hit. -/
def MatchClaimSpec (title : String) (logic : MatchLogic) : Prop :=
  (∀ n ∈ logic.negative_keywords, ¬ SubstrCI n title) ∧
  (logic.require_one_location.getD true = true →
    ∃ k ∈ logic.locations, SubstrCI k title) ∧
  (logic.require_one_topic.getD true = true →
    ∃ k ∈ logic.topics, SubstrCI k title)

/-- Claim C2's predicate amended with the nonemptiness of keywords, which is
how the code actually treats the three keyword lists (`k and k in title_l`). -/
def MatchAmendedSpec (title : String) (logic : MatchLogic) : Prop :=
  (∀ n ∈ logic.negative_keywords, n ≠ "" → ¬ SubstrCI n title) ∧
  (logic.require_one_location.getD true = true →
    ∃ k ∈ logic.locations, k ≠ "" ∧ SubstrCI k title) ∧
  (logic.require_one_topic.getD true = true →
    ∃ k ∈ logic.topics, k ≠ "" ∧ SubstrCI k title)

/-- A match-logic configuration exhibiting the divergence between claim C2
and the code: an empty-string negative keyword. -/
def logicEmptyNeg : MatchLogic :=
  { locations := ["a"], topics := ["a"], negative_keywords := [""] }

/-! ## JSON values, Python dicts, and the config/status files -/

/-- JSON values (numbers restricted to integers, which covers every value
the program's config and status files use). -/
inductive Json where
  | null
  | bool (b : Bool)
  | num (n : Int)
  | str (s : String)
  | arr (xs : List Json)
  | obj (fields : List (String × Json))

def Json.isObj : Json → Bool
  | .obj _ => true
  | _ => false

/-- Python dict lookup `d.get(k)`; dicts are association lists whose keys
are unique (as produced by JSON parsing), looked up by first match. -/
def dictGet {α : Type} : List (String × α) → String → Option α
  | [], _ => none
  | p :: rest, k => if p.1 == k then some p.2 else dictGet rest k

/-- Python `d.get(k, default)`. -/
def dictGetD {α : Type} (d : List (String × α)) (k : String) (v : α) : α :=
  (dictGet d k).getD v

/-- Python dict assignment `d[k] = v`: overwrite in place when the key
exists, append otherwise. -/
def dictSet {α : Type} (d : List (String × α)) (k : String) (v : α) :
    List (String × α) :=
  if d.any (fun p => p.1 == k) then
    d.map (fun p => if p.1 == k then (k, v) else p)
  else d ++ [(k, v)]

/-- Python `base.update(upd)`: shallow merge, last-write-wins per key. -/
def dictUpdate {α : Type} (base upd : List (String × α)) : List (String × α) :=
  upd.foldl (fun b p => dictSet b p.1 p.2) base

/-- Python truthiness `bool(x)` of a JSON value. -/
def pyTruthy : Json → Bool
  | .null => false
  | .bool b => b
  | .num n => n != 0
  | .str s => !s.isEmpty
  | .arr xs => !xs.isEmpty
  | .obj fs => !fs.isEmpty

/-- Python `cfg.get(k) or d` (the default is taken when the key is absent
or its value is falsy). -/
def getOr (cfg : List (String × Json)) (k : String) (d : Json) : Json :=
  match dictGet cfg k with
  | none => d
  | some v => if pyTruthy v then v else d

def stripChars (s : List Char) : List Char :=
  ((s.dropWhile Char.isWhitespace).reverse.dropWhile Char.isWhitespace).reverse

/-- A nonempty all-digit character list read as a natural number. -/
def parseDigits (acc : Nat) : List Char → Option Nat
  | [] => some acc
  | c :: cs => if c.isDigit then parseDigits (acc * 10 + (c.toNat - 48)) cs else none

/-- Python `int(s)` on a string: strip whitespace, optional sign, decimal
digits; anything else raises ValueError. -/
def parseIntStr (s : String) : Except String Int :=
  match stripChars s.data with
  | '-' :: rest =>
    match rest, parseDigits 0 rest with
    | _ :: _, some n => .ok (-(n : Int))
    | _, _ => .error "ValueError: invalid literal for int"
  | '+' :: rest =>
    match rest, parseDigits 0 rest with
    | _ :: _, some n => .ok ((n : Int))
    | _, _ => .error "ValueError: invalid literal for int"
  | t =>
    match t, parseDigits 0 t with
    | _ :: _, some n => .ok ((n : Int))
    | _, _ => .error "ValueError: invalid literal for int"

/-- Python `int(x)` on a JSON value (used on config fields): ints pass
through, booleans coerce, numeric strings parse, everything else raises. -/
def pyInt : Json → Except String Int
  | .num n => .ok n
  | .bool b => .ok (if b then 1 else 0)
  | .str s => parseIntStr s
  | .null => .error "TypeError: int() argument"
  | .arr _ => .error "TypeError: int() argument"
  | .obj _ => .error "TypeError: int() argument"

/-- The state of a JSON file on disk, as seen by a reader: absent,
unreadable/unparseable, or parsed to a JSON value. -/
inductive RawFile where
  | absent
  | malformed
  | parsed (v : Json)

/-- safe_read_json (lines 71-76): the parsed object's fields, `{}` when
reading or parsing fails or the value is not a dict. -/
def safe_read_json : RawFile → List (String × Json)
  | .parsed (.obj fields) => fields
  | _ => []

/-- The default configuration of load_config (line 110). -/
def defaultConfigDict : List (String × Json) :=
  [("enabled", Json.bool true), ("check_interval_seconds", Json.num 300),
   ("sources", Json.arr [])]

/-- load_config (lines 107-111): `{}` for an absent file, otherwise
safe_read_json; an empty (falsy) result is replaced by the defaults. -/
def load_config (f : RawFile) : List (String × Json) :=
  let cfg := match f with
    | .absent => []
    | f => safe_read_json f
  if cfg.isEmpty then defaultConfigDict else cfg

/-- A config file that cannot supply a configuration object: absent,
unparseable, or parsed JSON that is not an object. -/
def brokenConfigFile : RawFile → Prop
  | .absent => True
  | .malformed => True
  | .parsed v => v.isObj = false

/-- File operations performed by write_json_atomic on the status path. -/
inductive FsOp where
  | writeTmp (data : List (String × Json))
  | renameTmpOverFinal

/-- write_json_atomic (lines 79-82) as the sequence of file operations it
performs: write the temporary path, then rename it over the final path. -/
def write_json_atomic (data : List (String × Json)) : List FsOp :=
  [.writeTmp data, .renameTmpOverFinal]

/-- The dict update_status reads from the current status file (lines
319-321): `{}` when the file does not exist, else safe_read_json. -/
def statusBase : RawFile → List (String × Json)
  | .absent => []
  | f => safe_read_json f

/-- update_status (lines 318-323): read the current status, shallow-merge
the keyword arguments on top, write the result atomically.  Returns the
merged dict and the file operations performed. -/
def update_status (statusFile : RawFile) (kwargs : List (String × Json)) :
    List (String × Json) × List FsOp :=
  let merged := dictUpdate (statusBase statusFile) kwargs
  (merged, write_json_atomic merged)

/-! ## The main poll loop (lines 408-429) -/

/-- The observable outcome of one completed iteration of the loop body. -/
inductive LoopStep where
  | sleptDisabled
  | ranCycle (interval : Int) (ok : Bool)
deriving DecidableEq

/-- One iteration of the `while True` body of main (lines 412-429).
`.error e` means an exception escaped the loop body, terminating `main()`.
The cycle itself is abstracted by `runRaises`: whether `run_once` raised
(that exception is caught by the try/except of lines 423-427, which records
`ok=false`); status writes are assumed to succeed here. -/
def mainIter (cfgFile : RawFile) (runRaises : Bool) : Except String LoopStep :=
  let cfg := load_config cfgFile
  if pyTruthy (dictGetD cfg "enabled" (Json.bool true)) = false then
    .ok .sleptDisabled
  else
    match pyInt (getOr cfg "check_interval_seconds" (Json.num 300)) with
    | .error e => .error e
    | .ok interval0 =>
      let interval := max 30 (min interval0 3600)
      .ok (.ranCycle interval (!runRaises))

/-- C1's failing input: an enabled config whose check_interval_seconds is a
non-numeric string. -/
def cfgNonNumericInterval : RawFile :=
  .parsed (.obj [("enabled", Json.bool true),
    ("check_interval_seconds", Json.str "five")])

/-! ## Entries, sources, and one polling cycle (run_once, lines 343-405)

The network and the fallible local effects are abstracted by an `Env`:
each URL maps to either a raised exception or a response, a response being
its byte length together with the entry list that the classifier/parser
stage extracts from its bytes (the parser itself is modelled separately on
XML trees below); three flags say whether status-file writes, seen-log
writes and notification delivery succeed during the cycle. -/

/-- A feed entry (dataclass Entry, lines 58-64). -/
structure Entry where
  source : String
  title : String
  link : String
  uid : String
  published : Option String
deriving DecidableEq

/-- as_public_item (lines 334-340). -/
structure PublicItem where
  title : String
  link : String
  published : Option String
  uid : String
deriving DecidableEq

def as_public_item (e : Entry) : PublicItem :=
  { title := e.title, link := e.link, published := e.published, uid := e.uid }

/-- One configured source (`{name, url}`; missing fields read as `""`). -/
structure SourceCfg where
  name : String := ""
  url : String := ""
deriving DecidableEq

/-- The `notification` config sub-object. -/
structure NotifCfg where
  title : String := "POWER UPDATE"
  sound : Option String := none
  show_link_in_body : Bool := true
deriving DecidableEq

/-- The configuration fields run_once reads (lines 344-350), already
extracted from the config dict with their defaults applied. -/
structure WdCfg where
  sources : List SourceCfg := []
  request_timeout_seconds : Nat := 10
  max_feed_bytes : Nat := 2000000
  prime_on_first_run : Bool := true
  match_logic : MatchLogic := {}
  notification : NotifCfg := {}
deriving DecidableEq

/-- What the network does for one URL: `urlopen`/`read` raises, or the
transfer yields `length` bytes whose parse/extract stage produces
`entries`. -/
inductive NetResult where
  | raises (msg : String)
  | resp (length : Nat) (entries : List Entry)
deriving DecidableEq

/-- The environment of one cycle. -/
structure Env where
  net : List (String × NetResult) := []
  statusWriteOk : Bool := true
  seenWriteOk : Bool := true
  notifyDeliverOk : Bool := true
deriving DecidableEq

/-- The network outcome for a URL (unlisted URLs are unreachable). -/
def netFor (env : Env) (url : String) : NetResult :=
  (dictGet env.net url).getD (.raises "URLError")

/-- fetch (lines 131-137): `resp.read(max_bytes + 1)` returns at most
`max_bytes + 1` bytes; more than `max_bytes` raises
`ValueError("feed_too_large")`.  A successful fetch is represented by the
entries its bytes parse to. -/
def fetch (r : NetResult) (max_bytes : Nat) : Except String (List Entry) :=
  match r with
  | .raises msg => .error msg
  | .resp len entries =>
    if max_bytes < min len (max_bytes + 1) then .error "feed_too_large"
    else .ok entries

/-- Python `str.splitlines()` line boundaries (plus the `\r\n` pair,
handled by `splitLinesAux`). -/
def isLineBreak (c : Char) : Bool :=
  c == '\n' || c == '\r' || c == '\x0b' || c == '\x0c' ||
  c == '\x1c' || c == '\x1d' || c == '\x1e' || c == '\x85' ||
  c == '\u2028' || c == '\u2029'

/-- Python `str.splitlines()` over the characters, accumulating the current
line in `acc` (reversed): `\r\n` counts as a single boundary, a trailing
boundary produces no final empty line. -/
def splitLinesAux : List Char → List Char → List (List Char)
  | acc, [] => if acc.isEmpty then [] else [acc.reverse]
  | acc, [c] =>
    if isLineBreak c then [acc.reverse]
    else [(c :: acc).reverse]
  | acc, c :: d :: rest =>
    if c = '\r' ∧ d = '\n' then acc.reverse :: splitLinesAux [] rest
    else if isLineBreak c then acc.reverse :: splitLinesAux [] (d :: rest)
    else splitLinesAux (c :: acc) (d :: rest)

/-- Python `str.splitlines()`. -/
def splitLines (s : String) : List String :=
  (splitLinesAux [] s.data).map String.mk

/-- load_seen (lines 114-121): `set(read_text().splitlines())` — the lines
of the seen file's content, as a duplicate-free list (a read failure yields
the empty set exactly like an absent file). -/
def load_seen (content : String) : List String := (splitLines content).dedup

/-- append_seen (lines 123-128): append `uid + "\n"` to the flat seen-log
file; an IOError is caught inside (`except: pass`), leaving the file
unchanged. -/
def append_seen (writeOk : Bool) (content : String) (uid : String) : String :=
  if writeOk then content ++ (uid ++ "\n") else content

/-- The file content produced by a sequence of successful append_seen
calls, one per uid, starting from an empty file. -/
def seenLogChunks (uids : List String) : String :=
  uids.foldl (append_seen true) ""

/-- The notification subprocess call, which can fail. -/
def notify_attempt (deliverOk : Bool) : Except String Unit :=
  if deliverOk then .ok () else .error "subprocess failed"

/-- notify (lines 302-315): best-effort; the subprocess calls are inside
try/except blocks, so notify never raises regardless of delivery. -/
def notify (deliverOk : Bool) (title body : String) (sound : Option String) : Unit :=
  match notify_attempt deliverOk with
  | .ok _ => ()
  | .error _ => ()

/-- The mutable state threaded through one cycle: the in-memory seen set
(uids added in order), the content appended to the seen-log file by this
cycle's append_seen calls, and the counters/outputs of run_once.
`notified` records the entries for which notify was invoked. -/
structure RunState where
  seen : List String
  seenLog : String := ""
  hits : Nat := 0
  checked : Nat := 0
  last_error : Option String := none
  notified : List Entry := []
  latest : List (String × List PublicItem) := []
deriving DecidableEq

/-- The loop body of prime_seen: append each not-yet-seen uid to the seen
log and the in-memory set. -/
def primeFold (env : Env) : List Entry → RunState → RunState
  | [], st => st
  | e :: rest, st =>
    if e.uid ∈ st.seen then primeFold env rest st
    else primeFold env rest
      { st with seenLog := append_seen env.seenWriteOk st.seenLog e.uid,
                seen := st.seen ++ [e.uid] }

/-- prime_seen (lines 326-331): mark the first 50 entries as seen without
matching or notifying. -/
def prime_seen (env : Env) (entries : List Entry) (st : RunState) : RunState :=
  primeFold env (entries.take 50) st

/-- The body of the `if match(...)` branch (lines 379-390): count the hit,
build the body, notify (never raises), then update the status file with the
last_hit fields — the only step here that can raise. -/
def hitEntry (cfg : WdCfg) (env : Env) (e : Entry) (st : RunState) :
    Except (String × RunState) RunState :=
  let body := if cfg.notification.show_link_in_body && !e.link.isEmpty then
      e.title ++ "\n" ++ e.link else e.title
  let _ := notify env.notifyDeliverOk cfg.notification.title body cfg.notification.sound
  let st1 := { st with hits := st.hits + 1, notified := st.notified ++ [e] }
  if env.statusWriteOk then .ok st1 else .error ("IOError", st1)

/-- The `for e in entries[:80]` loop (lines 375-392).  An exception during
hit handling aborts the loop; the `.error` carries the state at the moment
of the raise (mutations before it are not rolled back). -/
def processEntries (cfg : WdCfg) (env : Env) :
    List Entry → RunState → Except (String × RunState) RunState
  | [], st => .ok st
  | e :: rest, st =>
    if e.uid ∈ st.seen then processEntries cfg env rest st
    else
      match (if matchTitle e.title cfg.match_logic then hitEntry cfg env e st
             else .ok st) with
      | .error err => .error err
      | .ok st1 =>
        processEntries cfg env rest
          { st1 with seenLog := append_seen env.seenWriteOk st1.seenLog e.uid,
                     seen := st1.seen ++ [e.uid] }

/-- One iteration of the `for src in sources` loop (lines 357-395): skip
empty URLs, count the source, fetch, record latest items, prime if the seen
set is currently empty, else process the entries; any exception is caught
here and recorded as `name: exc` in last_error. -/
def processSource (cfg : WdCfg) (env : Env) (st : RunState) (src : SourceCfg) : RunState :=
  let name := strOr src.name "source"
  if src.url.isEmpty then st
  else
    let st := { st with checked := st.checked + 1 }
    match fetch (netFor env src.url) cfg.max_feed_bytes with
    | .error msg => { st with last_error := some (name ++ ": " ++ msg) }
    | .ok entries =>
      let st := { st with
        latest := dictSet st.latest name ((entries.take 10).map as_public_item) }
      if st.seen.isEmpty && cfg.prime_on_first_run then
        prime_seen env entries st
      else
        match processEntries cfg env (entries.take 80) st with
        | .ok st1 => st1
        | .error (msg, st1) => { st1 with last_error := some (name ++ ": " ++ msg) }

/-- run_once (lines 343-405): fold the per-source step over the configured
sources, starting from the freshly loaded seen set.  (The final
`update_status(ok=True, ...)` of lines 397-404 is straight-line code after
the loop, computed from the returned state.) -/
def run_once (cfg : WdCfg) (env : Env) (seen0 : List String) : RunState :=
  cfg.sources.foldl (processSource cfg env) { seen := seen0 }

/-- The kwargs of the end-of-cycle status update (lines 397-404, sans
timestamp). -/
def cycleStatusKwargs (st : RunState) : List (String × Json) :=
  [("ok", Json.bool true), ("checked_sources", Json.num st.checked),
   ("hits", Json.num st.hits),
   ("last_error", match st.last_error with | none => Json.null | some s => Json.str s)]

/-- The cycle-observable components of a state that do not depend on the
`checked` counter or the `last_error` slot. -/
def obs (st : RunState) :
    List String × String × Nat × List Entry × List (String × List PublicItem) :=
  (st.seen, st.seenLog, st.hits, st.notified, st.latest)

/-- Override the two fields excluded from `obs`. -/
def setCL (st : RunState) (c : Nat) (l : Option String) : RunState :=
  { st with checked := c, last_error := l }

/-- The state carried by either outcome of the entry loop. -/
def exState : Except (String × RunState) RunState → RunState
  | .ok st => st
  | .error (_, st) => st

/-- How many notifications in `l` carry the uid `u`. -/
def countUid (u : String) (l : List Entry) : Nat :=
  (l.filter (fun e => e.uid == u)).length

/-- The number of sources a cycle counts as checked (nonempty URLs). -/
def checkedCount (l : List SourceCfg) : Nat :=
  (l.filter (fun s => !s.url.isEmpty)).length

/-- The invariant maintained across one cycle, relative to the seen set
`seen0` loaded at its start (`wOk` is the cycle's seen-log write flag). -/
def CycleInv (wOk : Bool) (seen0 : List String) (st : RunState) : Prop :=
  seen0 ⊆ st.seen ∧
  (wOk = true → ∃ uids : List String,
    st.seen = seen0 ++ uids ∧ st.seenLog = seenLogChunks uids) ∧
  (∀ e ∈ st.notified, e.uid ∈ st.seen) ∧
  (∀ e ∈ st.notified, e.uid ∉ seen0) ∧
  (∀ u, countUid u st.notified ≤ 1)

/-! ### Concrete data for the counterexamples and witnesses -/

/-- Match logic used by the concrete cycle scenarios: location `b`,
topic `s`. -/
def logicBS : MatchLogic := { locations := ["b"], topics := ["s"] }

def entryZZ : Entry :=
  { source := "s1", title := "zz", link := "", uid := "u1", published := none }

def entryBS : Entry :=
  { source := "s2", title := "bs", link := "", uid := "u2", published := none }

def entryBS3 : Entry :=
  { source := "s1", title := "bs", link := "", uid := "u3", published := none }

/-- Two sources; the first returns one (non-matching) entry, the second a
matching one.  Used to refute C3's cycle-wide priming claim. -/
def cfgTwoSources : WdCfg :=
  { sources := [{ name := "s1", url := "w1" }, { name := "s2", url := "w2" }],
    match_logic := logicBS }

def envTwoSources : Env :=
  { net := [("w1", .resp 10 [entryZZ]), ("w2", .resp 10 [entryBS])] }

/-- One source returning two matching entries; status writes fail.  Used to
refute C6's claim that status-write failures are swallowed. -/
def cfgOneSource : WdCfg :=
  { sources := [{ name := "s1", url := "w1" }],
    prime_on_first_run := false,
    match_logic := logicBS }

def envStatusFail : Env :=
  { net := [("w1", .resp 10 [entryBS, entryBS3])], statusWriteOk := false }

/-- An entry whose uid contains an interior newline (reachable: uid falls
back to the title, whose interior newlines survive the sanitizer and
strip()). -/
def entryNL : Entry :=
  { source := "s1", title := "bs", link := "", uid := "a\nb", published := none }

def envNL : Env := { net := [("w1", .resp 10 [entryNL])] }

def srcW1 : SourceCfg := { name := "s1", url := "w1" }

def srcBig : SourceCfg := { name := "big", url := "wbig" }

/-- A single-source config with priming on (the default). -/
def cfgPrimeOne : WdCfg := { sources := [srcW1], match_logic := logicBS }

def envPrimeOne : Env := { net := [("w1", .resp 10 [entryBS])] }

/-- Fully working environment for the one-source scenarios. -/
def envOneOk : Env := { net := [("w1", .resp 10 [entryBS, entryBS3])] }

/-- A config with a small byte cap, for the oversized-payload scenario. -/
def cfgC5 : WdCfg := { max_feed_bytes := 100, match_logic := logicBS }

def envC5 : Env := { net := [("wbig", .resp 101 []), ("w1", .resp 10 [entryBS])] }

/-! ## The tolerant parser on XML trees (parse_feed, lines 218-279)

parse_feed takes bytes; its byte-level stages (decode, control-character
strip, entity repair, lines 221-234) precede the strict `ET.fromstring`
parse, and the regex fallback (lines 238-255) only runs when that parse
fails.  A well-formed RSS document passes the byte-level stages unchanged
and parses strictly, so claim C9 is settled on the resulting element tree,
embedded here; `{*}`-prefixed ElementTree patterns are wildcard-namespace
tag matches. -/

structure XmlTag where
  ns : Option String
  name : String
deriving DecidableEq

inductive XmlNode where
  | elem (tag : XmlTag) (attrs : List (String × String)) (text : Option String)
      (children : List XmlNode)

def XmlNode.tag : XmlNode → XmlTag
  | .elem t _ _ _ => t

def XmlNode.attrs : XmlNode → List (String × String)
  | .elem _ a _ _ => a

def XmlNode.text : XmlNode → Option String
  | .elem _ _ t _ => t

def XmlNode.children : XmlNode → List XmlNode
  | .elem _ _ _ cs => cs

mutual
/-- All proper descendants of a node, in document (preorder) order. -/
def XmlNode.descendants : XmlNode → List XmlNode
  | .elem _ _ _ cs => XmlNode.descList cs
/-- All nodes of a forest and their descendants, in document order. -/
def XmlNode.descList : List XmlNode → List XmlNode
  | [] => []
  | c :: cs => c :: (XmlNode.descendants c ++ XmlNode.descList cs)
end

/-- An ElementTree tag pattern: plain `tag` (no-namespace elements only)
or wildcard-namespace `{*}tag`. -/
inductive TagPat where
  | plain (name : String)
  | anyNs (name : String)

def tagMatches (p : TagPat) (n : XmlNode) : Bool :=
  match p with
  | .plain s => n.tag.ns == none && n.tag.name == s
  | .anyNs s => n.tag.name == s

/-- Element.find(tag): the first matching direct child. -/
def findTag (n : XmlNode) (p : TagPat) : Option XmlNode :=
  n.children.find? (tagMatches p)

/-- Element.findall(".//tag"): all matching descendants in document
order. -/
def findallDesc (n : XmlNode) (p : TagPat) : List XmlNode :=
  (XmlNode.descList n.children).filter (tagMatches p)

/-- Python str.strip(). -/
def pyStrip (s : String) : String :=
  String.mk (((s.data.dropWhile Char.isWhitespace).reverse.dropWhile
    Char.isWhitespace).reverse)

/-- text_of (lines 175-178). -/
def text_of (node : Option XmlNode) : String :=
  match node with
  | none => ""
  | some n =>
    match n.text with
    | none => ""
    | some t => pyStrip t

/-- find_first_text (lines 181-188): first tag whose element exists and
has nonempty stripped text. -/
def find_first_text (parent : XmlNode) : List TagPat → String
  | [] => ""
  | t :: ts =>
    match findTag parent t with
    | some el =>
      let v := text_of (some el)
      if v.isEmpty then find_first_text parent ts else v
    | none => find_first_text parent ts

/-- ElementTree Element truthiness: an element with no children is falsy
(this is what Python `a or b` on the two find results at line 197 uses). -/
def elemTruthy (n : XmlNode) : Bool := !n.children.isEmpty

def attrGet (n : XmlNode) (k : String) : Option String := dictGet n.attrs k

/-- Python `a or b` on optional elements, with Element truthiness. -/
def orElem (a b : Option XmlNode) : Option XmlNode :=
  match a with
  | some n => if elemTruthy n then some n else b
  | none => b

/-- Python `x or d` for an optional string (absent or empty gives the
default). -/
def pyOrStr (a : Option String) (d : String) : String :=
  match a with
  | none => d
  | some s => if s.isEmpty then d else s

/-- extract_link_rss (lines 191-200). -/
def extract_link_rss (item : XmlNode) : String :=
  let link := strOr (text_of (findTag item (.plain "link")))
    (text_of (findTag item (.anyNs "link")))
  if !link.isEmpty then link
  else
    match orElem (findTag item (.plain "link")) (findTag item (.anyNs "link")) with
    | some link_el =>
      match attrGet link_el "href" with
      | some href => if href.isEmpty then "" else href
      | none => ""
    | none => ""

/-- extract_link_atom (lines 203-215): prefer a link with nonempty href
whose rel is empty/absent or "alternate"; fall back to any link with a
nonempty href. -/
def extract_link_atom (entry : XmlNode) : String :=
  let links := entry.children.filter (tagMatches (.anyNs "link"))
  match links.find? (fun l =>
      let rel := pyLower (pyOrStr (attrGet l "rel") "")
      let href := pyOrStr (attrGet l "href") ""
      !href.isEmpty && (rel == "" || rel == "alternate")) with
  | some l => pyOrStr (attrGet l "href") ""
  | none =>
    match links.find? (fun l => !(pyOrStr (attrGet l "href") "").isEmpty) with
    | some l => pyOrStr (attrGet l "href") ""
    | none => ""

/-- One RSS item converted to an Entry (lines 263-268). -/
def rssEntryOf (source : String) (it : XmlNode) : Entry :=
  let title := strOr (find_first_text it [.plain "title", .anyNs "title"]) "(no title)"
  let link := extract_link_rss it
  let uid := strOr
    (strOr (find_first_text it [.plain "guid", .anyNs "guid", .anyNs "id"]) link) title
  let pub := find_first_text it
    [.plain "pubDate", .anyNs "pubDate", .anyNs "published", .anyNs "updated"]
  { source := source, title := title, link := link, uid := uid,
    published := if pub.isEmpty then none else some pub }

/-- One Atom entry converted to an Entry (lines 273-278). -/
def atomEntryOf (source : String) (en : XmlNode) : Entry :=
  let title := strOr (find_first_text en [.anyNs "title"]) "(no title)"
  let link := extract_link_atom en
  let uid := strOr (strOr (find_first_text en [.anyNs "id"]) link) title
  let pub := find_first_text en [.anyNs "updated", .anyNs "published"]
  { source := source, title := title, link := link, uid := uid,
    published := if pub.isEmpty then none else some pub }

/-- The item list parse_feed iterates for RSS (lines 258-260): plain
`.//item` descendants, else wildcard-namespace ones. -/
def rssItems (root : XmlNode) : List XmlNode :=
  let items := findallDesc root (.plain "item")
  if items.isEmpty then findallDesc root (.anyNs "item") else items

/-- parse_feed on a successfully strict-parsed tree (lines 257-279): map
the RSS items in document order; with no items, map the Atom entries. -/
def parse_feed_xml (root : XmlNode) (source : String) : List Entry :=
  let items := rssItems root
  if !items.isEmpty then items.map (rssEntryOf source)
  else (findallDesc root (.anyNs "entry")).map (atomEntryOf source)

/-- Concrete one-item RSS tree for the C9 witness. -/
def itemW : XmlNode :=
  .elem ⟨none, "item"⟩ [] none
    [.elem ⟨none, "title"⟩ [] (some "Stromausfall Berlin") [],
     .elem ⟨none, "guid"⟩ [] (some "g1") []]

def rootW : XmlNode :=
  .elem ⟨none, "rss"⟩ [] none [.elem ⟨none, "channel"⟩ [] none [itemW]]

/-! ## Lemmas about the string helpers -/

theorem prefixOfB_iff (n : List Char) : ∀ h, prefixOfB n h = true ↔ ∃ r, h = n ++ r := by
  induction n with
  | nil =>
    intro h
    simp [prefixOfB]
  | cons a as ih =>
    intro h
    cases h with
    | nil =>
      simp [prefixOfB]
    | cons b bs =>
      simp only [prefixOfB, Bool.and_eq_true, beq_iff_eq, ih bs, List.cons_append,
        List.cons.injEq]
      constructor
      · rintro ⟨rfl, r, rfl⟩
        exact ⟨r, rfl, rfl⟩
      · rintro ⟨r, rfl, rfl⟩
        exact ⟨rfl, r, rfl⟩

theorem occursIn_iff (n : List Char) : ∀ h, occursIn n h = true ↔ ∃ l r, h = l ++ n ++ r := by
  intro h
  induction h with
  | nil =>
    simp only [occursIn, List.isEmpty_iff]
    constructor
    · rintro rfl
      exact ⟨[], [], rfl⟩
    · rintro ⟨l, r, hr⟩
      rcases List.append_eq_nil.mp (List.append_eq_nil.mp hr.symm).1 with ⟨-, h2⟩
      exact h2
  | cons c rest ih =>
    simp only [occursIn, Bool.or_eq_true, prefixOfB_iff, ih]
    constructor
    · rintro (⟨r, hr⟩ | ⟨l, r, hr⟩)
      · exact ⟨[], r, by simp [hr]⟩
      · exact ⟨c :: l, r, by simp [hr]⟩
    · rintro ⟨l, r, hr⟩
      cases l with
      | nil =>
        exact Or.inl ⟨r, by simpa using hr⟩
      | cons x xs =>
        rw [List.cons_append, List.cons_append, List.cons.injEq] at hr
        exact Or.inr ⟨xs, r, by rw [hr.2, List.append_assoc]⟩

theorem containsSub_iff (hay needle : String) :
    containsSub hay needle = true ↔ ∃ l r, hay.data = l ++ needle.data ++ r := by
  simpa [containsSub] using occursIn_iff needle.data hay.data

theorem pyLower_empty_iff (s : String) : (pyLower s).isEmpty = true ↔ s = "" := by
  rw [String.isEmpty_iff]
  constructor
  · intro h
    have hd : (pyLower s).data = [] := by rw [h]
    have hdata : s.data = [] := by simpa [pyLower] using hd
    exact String.ext (by simp [hdata])
  · rintro rfl
    rfl

/-- A keyword hit as computed by the code (over lowered strings) coincides
with the claim-side predicate `SubstrCI` plus nonemptiness. -/
theorem keywordHit_iff (title : String) (l : List String) :
    ((l.map pyLower).any (fun k => !k.isEmpty && containsSub (pyLower title) k) = true) ↔
      ∃ k ∈ l, k ≠ "" ∧ SubstrCI k title := by
  rw [List.any_map, List.any_eq_true]
  constructor
  · rintro ⟨k, hk, hcond⟩
    rw [Function.comp_apply, Bool.and_eq_true, Bool.not_eq_true'] at hcond
    refine ⟨k, hk, ?_, ?_⟩
    · intro hempty
      rw [← pyLower_empty_iff] at hempty
      simp [hempty] at hcond
    · exact (containsSub_iff _ _).mp hcond.2
  · rintro ⟨k, hk, hne, hsub⟩
    refine ⟨k, hk, ?_⟩
    rw [Function.comp_apply, Bool.and_eq_true, Bool.not_eq_true']
    refine ⟨?_, (containsSub_iff _ _).mpr hsub⟩
    by_contra hcon
    rw [Bool.not_eq_false, pyLower_empty_iff] at hcon
    exact hne hcon

/-- Boolean-level characterization of the matcher: the nested if-chain of
the source is equivalent to three independent conditions. -/
theorem matchTitle_char (title : String) (logic : MatchLogic) :
    matchTitle title logic = true ↔
      ((logic.negative_keywords.map pyLower).any
          (fun n => !n.isEmpty && containsSub (pyLower title) n) = false ∧
        (logic.require_one_location.getD true = true →
          (logic.locations.map pyLower).any
            (fun k => !k.isEmpty && containsSub (pyLower title) k) = true) ∧
        (logic.require_one_topic.getD true = true →
          (logic.topics.map pyLower).any
            (fun k => !k.isEmpty && containsSub (pyLower title) k) = true)) := by
  by_cases hA : (logic.negative_keywords.map pyLower).any
      (fun n => !n.isEmpty && containsSub (pyLower title) n) = true <;>
  by_cases hL : (logic.locations.map pyLower).any
      (fun k => !k.isEmpty && containsSub (pyLower title) k) = true <;>
  by_cases hT : (logic.topics.map pyLower).any
      (fun k => !k.isEmpty && containsSub (pyLower title) k) = true <;>
  by_cases hrL : logic.require_one_location.getD true = true <;>
  by_cases hrT : logic.require_one_topic.getD true = true <;>
  simp_all [matchTitle]

theorem negHit_iff (title : String) (l : List String) :
    ((l.map pyLower).any (fun n => !n.isEmpty && containsSub (pyLower title) n) = false) ↔
      ∀ n ∈ l, n ≠ "" → ¬ SubstrCI n title := by
  rw [← Bool.not_eq_true, keywordHit_iff]
  push_neg
  constructor
  · intro h n hn hne hsub
    exact (h n hn hne) hsub
  · intro h n hn hne
    exact h n hn hne

/-- Dropping empty-string keywords from a list does not change the keyword
hit computed by the matcher. -/
theorem any_filter_ne_empty (title : String) (l : List String) :
    (((l.filter (fun k => k ≠ "")).map pyLower).any
        (fun k => !k.isEmpty && containsSub (pyLower title) k)) =
      ((l.map pyLower).any (fun k => !k.isEmpty && containsSub (pyLower title) k)) := by
  induction l with
  | nil => rfl
  | cons x xs ih =>
    by_cases hx : x = ""
    · subst hx
      rw [List.filter_cons_of_neg (by simp), ih, List.map_cons, List.any_cons]
      have hempty : (pyLower "").isEmpty = true := rfl
      simp [hempty]
    · rw [List.filter_cons_of_pos (by simp [hx])]
      simp only [List.map_cons, List.any_cons, ih]

/-- C2: the matcher claim fails as literally stated, because an empty-string
negative keyword is a (vacuous) case-insensitive substring of every title,
yet the code ignores it: on title `a` with negative keywords `[""]` the code
matches while the claimed characterization forbids any match. -/
theorem C2_matcher_iff_counterexample :
    matchTitle "a" logicEmptyNeg = true ∧ ¬ MatchClaimSpec "a" logicEmptyNeg := by
  refine ⟨by decide, ?_⟩
  rintro ⟨hneg, -, -⟩
  exact hneg "" (by simp [logicEmptyNeg]) ⟨[], ['a'], by decide⟩

/-- C2 (amended): `match(title, cfg)` returns `true` iff no *nonempty*
configured negative keyword is a case-insensitive substring of the title,
and, for each of the two `require_*` flags that is enabled (both default to
enabled), at least one *nonempty* configured keyword of the corresponding
list is a case-insensitive substring of the title. -/
theorem C2_matcher_iff_amended (title : String) (logic : MatchLogic) :
    matchTitle title logic = true ↔ MatchAmendedSpec title logic := by
  rw [matchTitle_char]
  unfold MatchAmendedSpec
  refine and_congr (negHit_iff title _) (and_congr ?_ ?_) <;>
    exact imp_congr Iff.rfl (keywordHit_iff title _)

/-- C10: with `require_one_location` enabled (the default) and an empty (or
absent, modelled as empty) locations list, no title matches; symmetrically
for topics; hence the default `match_logic` accepts no title; and an
empty-string keyword in any of the three lists is ignored rather than
treated as a universal substring match. -/
theorem C10_matcher_empty_lists :
    (∀ title (logic : MatchLogic), logic.require_one_location.getD true = true →
      logic.locations = [] → matchTitle title logic = false) ∧
    (∀ title (logic : MatchLogic), logic.require_one_topic.getD true = true →
      logic.topics = [] → matchTitle title logic = false) ∧
    (∀ title, matchTitle title {} = false) ∧
    (∀ title (logic : MatchLogic),
      matchTitle title logic =
        matchTitle title { logic with
          locations := logic.locations.filter (fun k => k ≠ ""),
          topics := logic.topics.filter (fun k => k ≠ ""),
          negative_keywords := logic.negative_keywords.filter (fun k => k ≠ "") }) := by
  have h1 : ∀ title (logic : MatchLogic), logic.require_one_location.getD true = true →
      logic.locations = [] → matchTitle title logic = false := by
    intro title logic hreq hloc
    rw [← Bool.not_eq_true, matchTitle_char]
    rintro ⟨-, hlocImp, -⟩
    have := hlocImp hreq
    rw [hloc] at this
    simp at this
  have h2 : ∀ title (logic : MatchLogic), logic.require_one_topic.getD true = true →
      logic.topics = [] → matchTitle title logic = false := by
    intro title logic hreq htop
    rw [← Bool.not_eq_true, matchTitle_char]
    rintro ⟨-, -, htopImp⟩
    have := htopImp hreq
    rw [htop] at this
    simp at this
  refine ⟨h1, h2, fun title => h1 title {} rfl rfl, ?_⟩
  intro title logic
  simp only [matchTitle, any_filter_ne_empty]

/-- Witness for C10 at concrete inputs. -/
theorem C10_matcher_empty_lists_witness :
    matchTitle "x" { topics := ["x"] } = false ∧ matchTitle "y" {} = false :=
  ⟨C10_matcher_empty_lists.1 "x" { topics := ["x"] } rfl rfl,
    C10_matcher_empty_lists.2.2.1 "y"⟩

/-! ## Shape lemmas for the cycle machinery -/

theorem processEntries_cons_seen {cfg : WdCfg} {env : Env} {e : Entry}
    {rest : List Entry} {st : RunState} (h : e.uid ∈ st.seen) :
    processEntries cfg env (e :: rest) st = processEntries cfg env rest st := by
  simp [processEntries, h]

theorem processEntries_cons_nomatch {cfg : WdCfg} {env : Env} {e : Entry}
    {rest : List Entry} {st : RunState} (h : e.uid ∉ st.seen)
    (hm : matchTitle e.title cfg.match_logic = false) :
    processEntries cfg env (e :: rest) st =
      processEntries cfg env rest
        { st with seenLog := append_seen env.seenWriteOk st.seenLog e.uid,
                  seen := st.seen ++ [e.uid] } := by
  simp [processEntries, h, hm]

theorem processEntries_cons_hit_ok {cfg : WdCfg} {env : Env} {e : Entry}
    {rest : List Entry} {st : RunState} (h : e.uid ∉ st.seen)
    (hm : matchTitle e.title cfg.match_logic = true) (hS : env.statusWriteOk = true) :
    processEntries cfg env (e :: rest) st =
      processEntries cfg env rest
        { st with hits := st.hits + 1, notified := st.notified ++ [e],
                  seenLog := append_seen env.seenWriteOk st.seenLog e.uid,
                  seen := st.seen ++ [e.uid] } := by
  simp [processEntries, h, hm, hitEntry, hS]

theorem processEntries_cons_hit_fail {cfg : WdCfg} {env : Env} {e : Entry}
    {rest : List Entry} {st : RunState} (h : e.uid ∉ st.seen)
    (hm : matchTitle e.title cfg.match_logic = true) (hS : env.statusWriteOk = false) :
    processEntries cfg env (e :: rest) st =
      .error ("IOError",
        { st with hits := st.hits + 1, notified := st.notified ++ [e] }) := by
  simp [processEntries, h, hm, hitEntry, hS]

theorem processSource_empty_url {cfg : WdCfg} {env : Env} {st : RunState}
    {src : SourceCfg} (h : src.url.isEmpty = true) :
    processSource cfg env st src = st := by
  simp [processSource, h]

theorem processSource_fetch_error {cfg : WdCfg} {env : Env} {st : RunState}
    {src : SourceCfg} {msg : String} (h : src.url.isEmpty = false)
    (hmsg : fetch (netFor env src.url) cfg.max_feed_bytes = Except.error msg) :
    processSource cfg env st src =
      { st with checked := st.checked + 1,
                last_error := some (strOr src.name "source" ++ ": " ++ msg) } := by
  simp [processSource, h, hmsg]

theorem processSource_ok_prime {cfg : WdCfg} {env : Env} {st : RunState}
    {src : SourceCfg} {entries : List Entry} (h : src.url.isEmpty = false)
    (hfetch : fetch (netFor env src.url) cfg.max_feed_bytes = Except.ok entries)
    (hpr : (st.seen.isEmpty && cfg.prime_on_first_run) = true) :
    processSource cfg env st src =
      prime_seen env entries
        { st with checked := st.checked + 1,
                  latest := dictSet st.latest (strOr src.name "source")
                    ((entries.take 10).map as_public_item) } := by
  simp [processSource, h, hfetch, hpr]

theorem processSource_ok_entries {cfg : WdCfg} {env : Env} {st : RunState}
    {src : SourceCfg} {entries : List Entry} (h : src.url.isEmpty = false)
    (hfetch : fetch (netFor env src.url) cfg.max_feed_bytes = Except.ok entries)
    (hpr : (st.seen.isEmpty && cfg.prime_on_first_run) = false) :
    processSource cfg env st src =
      (match processEntries cfg env (entries.take 80)
          { st with checked := st.checked + 1,
                    latest := dictSet st.latest (strOr src.name "source")
                      ((entries.take 10).map as_public_item) } with
       | .ok st1 => st1
       | .error (msg, st1) =>
         { st1 with last_error := some (strOr src.name "source" ++ ": " ++ msg) }) := by
  simp [processSource, h, hfetch, hpr]

/-! ## Frame and monotonicity lemmas -/

theorem obs_setCL (st : RunState) (c : Nat) (lerr : Option String) :
    obs (setCL st c lerr) = obs st := rfl

theorem eq_setCL_of_obs_eq {st st' : RunState} (h : obs st = obs st') :
    st' = setCL st st'.checked st'.last_error := by
  cases st with
  | mk s sl hh c le n la =>
    cases st' with
    | mk s' sl' hh' c' le' n' la' =>
      simp only [obs, Prod.mk.injEq] at h
      obtain ⟨e1, e2, e3, e4, e5⟩ := h
      simp [setCL, e1, e2, e3, e4, e5]

theorem primeFold_notified (env : Env) :
    ∀ (l : List Entry) (st : RunState), (primeFold env l st).notified = st.notified := by
  intro l
  induction l with
  | nil => intro st; rfl
  | cons e rest ih =>
    intro st
    by_cases h : e.uid ∈ st.seen <;> simp [primeFold, h, ih]

theorem primeFold_hits (env : Env) :
    ∀ (l : List Entry) (st : RunState), (primeFold env l st).hits = st.hits := by
  intro l
  induction l with
  | nil => intro st; rfl
  | cons e rest ih =>
    intro st
    by_cases h : e.uid ∈ st.seen <;> simp [primeFold, h, ih]

theorem primeFold_checked (env : Env) :
    ∀ (l : List Entry) (st : RunState), (primeFold env l st).checked = st.checked := by
  intro l
  induction l with
  | nil => intro st; rfl
  | cons e rest ih =>
    intro st
    by_cases h : e.uid ∈ st.seen <;> simp [primeFold, h, ih]

theorem primeFold_setCL (env : Env) :
    ∀ (l : List Entry) (st : RunState) (c : Nat) (lerr : Option String),
      primeFold env l (setCL st c lerr) = setCL (primeFold env l st) c lerr := by
  intro l
  induction l with
  | nil => intro st c lerr; rfl
  | cons e rest ih =>
    intro st c lerr
    by_cases h : e.uid ∈ st.seen
    · have h' : e.uid ∈ (setCL st c lerr).seen := h
      simp only [primeFold, if_pos h, if_pos h']
      exact ih st c lerr
    · have h' : e.uid ∉ (setCL st c lerr).seen := h
      simp only [primeFold, if_neg h, if_neg h']
      exact ih { st with seenLog := append_seen env.seenWriteOk st.seenLog e.uid,
                         seen := st.seen ++ [e.uid] } c lerr

theorem primeFold_seen_mono (env : Env) :
    ∀ (l : List Entry) (st : RunState), st.seen ⊆ (primeFold env l st).seen := by
  intro l
  induction l with
  | nil => intro st; exact List.Subset.refl _
  | cons e rest ih =>
    intro st
    by_cases h : e.uid ∈ st.seen
    · simpa [primeFold, h] using ih st
    · simp only [primeFold, if_neg h]
      exact (List.subset_append_left _ _).trans
        (ih { st with seenLog := append_seen env.seenWriteOk st.seenLog e.uid,
                      seen := st.seen ++ [e.uid] })

theorem primeFold_mem (env : Env) :
    ∀ (l : List Entry) (st : RunState), ∀ e ∈ l, e.uid ∈ (primeFold env l st).seen := by
  intro l
  induction l with
  | nil => intro st e he; cases he
  | cons e0 rest ih =>
    intro st e he
    rcases List.mem_cons.mp he with rfl | hrest
    · by_cases h : e.uid ∈ st.seen
      · simp only [primeFold, if_pos h]
        exact primeFold_seen_mono env rest st h
      · simp only [primeFold, if_neg h]
        exact primeFold_seen_mono env rest _
          (List.mem_append_right _ (List.mem_singleton.mpr rfl))
    · by_cases h : e0.uid ∈ st.seen
      · simp only [primeFold, if_pos h]
        exact ih st e hrest
      · simp only [primeFold, if_neg h]
        exact ih _ e hrest

theorem processEntries_setCL (cfg : WdCfg) (env : Env) :
    ∀ (l : List Entry) (st : RunState) (c : Nat) (lerr : Option String),
      processEntries cfg env l (setCL st c lerr) =
        (match processEntries cfg env l st with
         | .ok r => .ok (setCL r c lerr)
         | .error (m, r) => .error (m, setCL r c lerr)) := by
  intro l
  induction l with
  | nil => intro st c lerr; rfl
  | cons e rest ih =>
    intro st c lerr
    by_cases hseen : e.uid ∈ st.seen
    · have hseen' : e.uid ∈ (setCL st c lerr).seen := hseen
      rw [processEntries_cons_seen hseen', processEntries_cons_seen hseen]
      exact ih st c lerr
    · have hseen' : e.uid ∉ (setCL st c lerr).seen := hseen
      by_cases hm : matchTitle e.title cfg.match_logic = true
      · by_cases hS : env.statusWriteOk = true
        · rw [processEntries_cons_hit_ok hseen' hm hS, processEntries_cons_hit_ok hseen hm hS]
          exact ih { st with hits := st.hits + 1, notified := st.notified ++ [e],
                             seenLog := append_seen env.seenWriteOk st.seenLog e.uid,
                             seen := st.seen ++ [e.uid] } c lerr
        · rw [Bool.not_eq_true] at hS
          rw [processEntries_cons_hit_fail hseen' hm hS,
            processEntries_cons_hit_fail hseen hm hS]
          rfl
      · rw [Bool.not_eq_true] at hm
        rw [processEntries_cons_nomatch hseen' hm, processEntries_cons_nomatch hseen hm]
        exact ih { st with seenLog := append_seen env.seenWriteOk st.seenLog e.uid,
                           seen := st.seen ++ [e.uid] } c lerr

theorem processEntries_checked (cfg : WdCfg) (env : Env) :
    ∀ (l : List Entry) (st : RunState),
      (exState (processEntries cfg env l st)).checked = st.checked := by
  intro l
  induction l with
  | nil => intro st; rfl
  | cons e rest ih =>
    intro st
    by_cases hseen : e.uid ∈ st.seen
    · rw [processEntries_cons_seen hseen]
      exact ih st
    · by_cases hm : matchTitle e.title cfg.match_logic = true
      · by_cases hS : env.statusWriteOk = true
        · rw [processEntries_cons_hit_ok hseen hm hS]
          exact ih _
        · rw [Bool.not_eq_true] at hS
          rw [processEntries_cons_hit_fail hseen hm hS]
          rfl
      · rw [Bool.not_eq_true] at hm
        rw [processEntries_cons_nomatch hseen hm]
        exact ih _

theorem processEntries_latest (cfg : WdCfg) (env : Env) :
    ∀ (l : List Entry) (st : RunState),
      (exState (processEntries cfg env l st)).latest = st.latest := by
  intro l
  induction l with
  | nil => intro st; rfl
  | cons e rest ih =>
    intro st
    by_cases hseen : e.uid ∈ st.seen
    · rw [processEntries_cons_seen hseen]
      exact ih st
    · by_cases hm : matchTitle e.title cfg.match_logic = true
      · by_cases hS : env.statusWriteOk = true
        · rw [processEntries_cons_hit_ok hseen hm hS]
          exact ih _
        · rw [Bool.not_eq_true] at hS
          rw [processEntries_cons_hit_fail hseen hm hS]
          rfl
      · rw [Bool.not_eq_true] at hm
        rw [processEntries_cons_nomatch hseen hm]
        exact ih _

theorem processEntries_seen_mono (cfg : WdCfg) (env : Env) :
    ∀ (l : List Entry) (st : RunState),
      st.seen ⊆ (exState (processEntries cfg env l st)).seen := by
  intro l
  induction l with
  | nil => intro st; exact List.Subset.refl _
  | cons e rest ih =>
    intro st
    by_cases hseen : e.uid ∈ st.seen
    · rw [processEntries_cons_seen hseen]
      exact ih st
    · by_cases hm : matchTitle e.title cfg.match_logic = true
      · by_cases hS : env.statusWriteOk = true
        · rw [processEntries_cons_hit_ok hseen hm hS]
          exact List.Subset.trans (List.subset_append_left st.seen [e.uid])
            (ih { st with hits := st.hits + 1, notified := st.notified ++ [e],
                          seenLog := append_seen env.seenWriteOk st.seenLog e.uid,
                          seen := st.seen ++ [e.uid] })
        · rw [Bool.not_eq_true] at hS
          rw [processEntries_cons_hit_fail hseen hm hS]
          exact List.Subset.refl _
      · rw [Bool.not_eq_true] at hm
        rw [processEntries_cons_nomatch hseen hm]
        exact List.Subset.trans (List.subset_append_left st.seen [e.uid])
          (ih { st with seenLog := append_seen env.seenWriteOk st.seenLog e.uid,
                        seen := st.seen ++ [e.uid] })

/-- With working status writes the entry loop never raises; it returns a
state whose seen set extends the input's and contains every processed
entry's uid. -/
theorem processEntries_ok_mem (cfg : WdCfg) (env : Env) (hS : env.statusWriteOk = true) :
    ∀ (l : List Entry) (st : RunState),
      ∃ st2, processEntries cfg env l st = .ok st2 ∧
        st.seen ⊆ st2.seen ∧ ∀ e ∈ l, e.uid ∈ st2.seen := by
  intro l
  induction l with
  | nil => intro st; exact ⟨st, rfl, List.Subset.refl _, fun e he => absurd he (List.not_mem_nil e)⟩
  | cons e rest ih =>
    intro st
    by_cases hseen : e.uid ∈ st.seen
    · obtain ⟨st2, heq, hsub, hmem⟩ := ih st
      refine ⟨st2, ?_, hsub, ?_⟩
      · rw [processEntries_cons_seen hseen]
        exact heq
      · intro e' he'
        rcases List.mem_cons.mp he' with rfl | h'
        · exact hsub hseen
        · exact hmem e' h'
    · by_cases hm : matchTitle e.title cfg.match_logic = true
      · obtain ⟨st2, heq, hsub, hmem⟩ :=
          ih { st with hits := st.hits + 1, notified := st.notified ++ [e],
                       seenLog := append_seen env.seenWriteOk st.seenLog e.uid,
                       seen := st.seen ++ [e.uid] }
        refine ⟨st2, ?_, ?_, ?_⟩
        · rw [processEntries_cons_hit_ok hseen hm hS]
          exact heq
        · exact (List.subset_append_left _ _).trans hsub
        · intro e' he'
          rcases List.mem_cons.mp he' with rfl | h'
          · exact hsub (List.mem_append_right _ (List.mem_singleton.mpr rfl))
          · exact hmem e' h'
      · rw [Bool.not_eq_true] at hm
        obtain ⟨st2, heq, hsub, hmem⟩ :=
          ih { st with seenLog := append_seen env.seenWriteOk st.seenLog e.uid,
                       seen := st.seen ++ [e.uid] }
        refine ⟨st2, ?_, ?_, ?_⟩
        · rw [processEntries_cons_nomatch hseen hm]
          exact heq
        · exact (List.subset_append_left _ _).trans hsub
        · intro e' he'
          rcases List.mem_cons.mp he' with rfl | h'
          · exact hsub (List.mem_append_right _ (List.mem_singleton.mpr rfl))
          · exact hmem e' h'

/-! ## countUid lemmas -/

theorem countUid_append (u : String) (l₁ l₂ : List Entry) :
    countUid u (l₁ ++ l₂) = countUid u l₁ + countUid u l₂ := by
  simp [countUid, List.filter_append]

theorem countUid_eq_zero (u : String) (l : List Entry) (h : ∀ e ∈ l, e.uid ≠ u) :
    countUid u l = 0 := by
  unfold countUid
  rw [List.length_eq_zero, List.filter_eq_nil_iff]
  intro e he
  simpa using h e he

theorem countUid_pos (u : String) (l : List Entry) (h : 0 < countUid u l) :
    ∃ e ∈ l, e.uid = u := by
  unfold countUid at h
  rw [List.length_pos] at h
  obtain ⟨e, he⟩ := List.exists_mem_of_ne_nil _ h
  have := List.mem_filter.mp he
  exact ⟨e, this.1, by simpa using this.2⟩

/-! ## The seen-log flat-text encoding -/

theorem strEmpty_append (s : String) : "" ++ s = s :=
  String.ext (by simp [String.data_append])

theorem strAppend_empty (s : String) : s ++ "" = s :=
  String.ext (by simp [String.data_append])

theorem seenLogChunks_shift :
    ∀ (l : List String) (C : String),
      List.foldl (append_seen true) C l = C ++ seenLogChunks l := by
  intro l
  induction l with
  | nil =>
    intro C
    show C = C ++ seenLogChunks []
    rw [show seenLogChunks [] = "" from rfl, strAppend_empty]
  | cons v t ih =>
    intro C
    show List.foldl (append_seen true) (append_seen true C v) t =
      C ++ seenLogChunks (v :: t)
    rw [ih]
    have hvt : seenLogChunks (v :: t) = ("" ++ (v ++ "\n")) ++ seenLogChunks t := by
      show List.foldl (append_seen true) (append_seen true "" v) t = _
      rw [ih]
      rfl
    rw [hvt, strEmpty_append]
    exact String.append_assoc C (v ++ "\n") (seenLogChunks t)

theorem seenLogChunks_cons (v : String) (t : List String) :
    seenLogChunks (v :: t) = (v ++ "\n") ++ seenLogChunks t := by
  show List.foldl (append_seen true) (append_seen true "" v) t = _
  rw [seenLogChunks_shift]
  show ("" ++ (v ++ "\n")) ++ seenLogChunks t = _
  rw [strEmpty_append]

theorem seenLogChunks_snoc (l : List String) (u : String) :
    seenLogChunks (l ++ [u]) = seenLogChunks l ++ (u ++ "\n") := by
  show List.foldl (append_seen true) "" (l ++ [u]) = _
  rw [List.foldl_append]
  simp only [List.foldl_cons, List.foldl_nil]
  rfl

theorem seenLogChunks_append (l1 l2 : List String) :
    seenLogChunks (l1 ++ l2) = seenLogChunks l1 ++ seenLogChunks l2 := by
  show List.foldl (append_seen true) "" (l1 ++ l2) = _
  rw [List.foldl_append]
  exact seenLogChunks_shift l2 _

theorem splitLinesAux_nl_free :
    ∀ (u acc : List Char), (∀ c ∈ u, isLineBreak c = false) →
      splitLinesAux acc (u ++ ['\n']) = [acc.reverse ++ u] := by
  intro u
  induction u with
  | nil =>
    intro acc _
    have hnb : isLineBreak '\n' = true := by decide
    show splitLinesAux acc ['\n'] = [acc.reverse ++ []]
    rw [List.append_nil]
    simp [splitLinesAux, hnb]
  | cons c u2 ih =>
    intro acc hfree
    have hc : isLineBreak c = false := hfree c (List.mem_cons_self c u2)
    have hcr : ¬(c = '\r') := by
      intro hcc
      rw [hcc] at hc
      exact absurd hc (by decide)
    have hcb : ¬(isLineBreak c = true) := by
      rw [hc]
      exact Bool.false_ne_true
    cases u2 with
    | nil =>
      have hnb : isLineBreak '\n' = true := by decide
      show splitLinesAux acc [c, '\n'] = [acc.reverse ++ [c]]
      simp [splitLinesAux, hnb, hc, hcr]
    | cons d u3 =>
      have hfree2 : ∀ x ∈ d :: u3, isLineBreak x = false :=
        fun x hx => hfree x (List.mem_cons_of_mem c hx)
      show splitLinesAux acc (c :: d :: (u3 ++ ['\n'])) = [acc.reverse ++ (c :: d :: u3)]
      simp only [splitLinesAux]
      rw [if_neg (fun h => hcr h.1), if_neg hcb]
      rw [show (d :: (u3 ++ ['\n']) : List Char) = (d :: u3) ++ ['\n'] from rfl]
      rw [ih (c :: acc) hfree2]
      simp

theorem splitLinesAux_nl_append (R : List Char) :
    ∀ acc, splitLinesAux acc ('\n' :: R) =
      splitLinesAux acc ['\n'] ++ splitLinesAux [] R := by
  intro acc
  cases R with
  | nil =>
    show splitLinesAux acc ['\n'] = splitLinesAux acc ['\n'] ++ splitLinesAux [] []
    rw [show splitLinesAux [] ([] : List Char) = [] from rfl, List.append_nil]
  | cons r R2 =>
    simp only [splitLinesAux]
    rw [if_neg (fun h => absurd h.1 (by decide))]
    rw [if_pos (show isLineBreak '\n' = true from rfl)]
    rw [if_pos (show isLineBreak '\n' = true from rfl)]
    rfl

theorem splitLinesAux_chunk_append :
    ∀ (n : Nat) (v : List Char), v.length ≤ n → ∀ (acc R : List Char),
      splitLinesAux acc ((v ++ ['\n']) ++ R) =
        splitLinesAux acc (v ++ ['\n']) ++ splitLinesAux [] R := by
  intro n
  induction n with
  | zero =>
    intro v hv acc R
    have hnil : v = [] := List.eq_nil_of_length_eq_zero (Nat.le_zero.mp hv)
    subst hnil
    exact splitLinesAux_nl_append R acc
  | succ n ih =>
    intro v hv acc R
    cases v with
    | nil => exact splitLinesAux_nl_append R acc
    | cons c v2 =>
      cases v2 with
      | nil =>
        have hnb : isLineBreak '\n' = true := by decide
        by_cases hcr : c = '\r'
        · subst hcr
          show splitLinesAux acc ('\r' :: '\n' :: R) =
            splitLinesAux acc ['\r', '\n'] ++ splitLinesAux [] R
          simp [splitLinesAux]
        · by_cases hbr : isLineBreak c = true
          · show splitLinesAux acc (c :: '\n' :: R) =
              splitLinesAux acc [c, '\n'] ++ splitLinesAux [] R
            simp [splitLinesAux, hcr, hbr, hnb, splitLinesAux_nl_append]
          · rw [Bool.not_eq_true] at hbr
            show splitLinesAux acc (c :: '\n' :: R) =
              splitLinesAux acc [c, '\n'] ++ splitLinesAux [] R
            simp [splitLinesAux, hcr, hbr, hnb, splitLinesAux_nl_append]
      | cons d v3 =>
        have hlen3 : v3.length ≤ n := by
          simp only [List.length_cons] at hv
          omega
        have hlen2 : (d :: v3).length ≤ n := by
          simp only [List.length_cons] at hv ⊢
          omega
        show splitLinesAux acc (c :: d :: ((v3 ++ ['\n']) ++ R)) =
          splitLinesAux acc (c :: d :: (v3 ++ ['\n'])) ++ splitLinesAux [] R
        by_cases hm : c = '\r' ∧ d = '\n'
        · simp only [splitLinesAux]
          rw [if_pos hm, if_pos hm]
          rw [ih v3 hlen3 [] R]
          rfl
        · by_cases hbr : isLineBreak c = true
          · simp only [splitLinesAux]
            rw [if_neg hm, if_neg hm, if_pos hbr, if_pos hbr]
            rw [show (d :: ((v3 ++ ['\n']) ++ R) : List Char) =
              ((d :: v3) ++ ['\n']) ++ R from rfl]
            rw [ih (d :: v3) hlen2 [] R]
            rfl
          · simp only [splitLinesAux]
            rw [if_neg hm, if_neg hm, if_neg hbr, if_neg hbr]
            rw [show (d :: ((v3 ++ ['\n']) ++ R) : List Char) =
              ((d :: v3) ++ ['\n']) ++ R from rfl]
            rw [show (d :: (v3 ++ ['\n']) : List Char) = (d :: v3) ++ ['\n'] from rfl]
            exact ih (d :: v3) hlen2 (c :: acc) R

theorem splitLines_chunk_append (v R : String) :
    splitLines ((v ++ "\n") ++ R) = splitLines (v ++ "\n") ++ splitLines R := by
  unfold splitLines
  rw [show ((v ++ "\n") ++ R).data = (v.data ++ ['\n']) ++ R.data from by
    simp [String.data_append]]
  rw [show (v ++ "\n").data = v.data ++ ['\n'] from by simp [String.data_append]]
  rw [splitLinesAux_chunk_append v.data.length v.data (Nat.le_refl _) [] R.data]
  rw [List.map_append]

/-- A line-break-free uid recorded by append_seen is one of the lines the
next load_seen reads back. -/
theorem mem_splitLines_chunks (u : String)
    (hu : ∀ c ∈ u.data, isLineBreak c = false) :
    ∀ (l : List String), u ∈ l → u ∈ splitLines (seenLogChunks l) := by
  intro l
  induction l with
  | nil => intro h; cases h
  | cons v t ih =>
    intro hmem
    rw [seenLogChunks_cons, splitLines_chunk_append]
    rcases List.mem_cons.mp hmem with rfl | hmem2
    · apply List.mem_append_left
      unfold splitLines
      rw [show (u ++ "\n").data = u.data ++ ['\n'] from by simp [String.data_append]]
      rw [splitLinesAux_nl_free u.data [] hu]
      simp
    · exact List.mem_append_right _ (ih hmem2)

/-! ## The cycle invariant -/

theorem primeFold_CycleInv (env : Env) (seen0 : List String) :
    ∀ (l : List Entry) (st : RunState), CycleInv env.seenWriteOk seen0 st →
      CycleInv env.seenWriteOk seen0 (primeFold env l st) := by
  intro l
  induction l with
  | nil => intro st h; exact h
  | cons e rest ih =>
    intro st h
    by_cases hseen : e.uid ∈ st.seen
    · simp only [primeFold, if_pos hseen]
      exact ih st h
    · simp only [primeFold, if_neg hseen]
      apply ih
      obtain ⟨h1, h2, h3, h4, h5⟩ := h
      refine ⟨h1.trans (List.subset_append_left _ _), ?_, ?_, h4, h5⟩
      · intro hw
        obtain ⟨uids, hs, hl⟩ := h2 hw
        refine ⟨uids ++ [e.uid], ?_, ?_⟩
        · show st.seen ++ [e.uid] = seen0 ++ (uids ++ [e.uid])
          rw [hs, List.append_assoc]
        · show append_seen env.seenWriteOk st.seenLog e.uid = seenLogChunks (uids ++ [e.uid])
          rw [seenLogChunks_snoc, append_seen, if_pos hw, hl]
      · intro e' he'
        exact List.mem_append_left _ (h3 e' he')

theorem processEntries_CycleInv (cfg : WdCfg) (env : Env) (seen0 : List String)
    (hS : env.statusWriteOk = true) :
    ∀ (l : List Entry) (st : RunState), CycleInv env.seenWriteOk seen0 st →
      CycleInv env.seenWriteOk seen0 (exState (processEntries cfg env l st)) := by
  intro l
  induction l with
  | nil => intro st h; exact h
  | cons e rest ih =>
    intro st h
    by_cases hseen : e.uid ∈ st.seen
    · rw [processEntries_cons_seen hseen]
      exact ih st h
    · obtain ⟨h1, h2, h3, h4, h5⟩ := h
      by_cases hm : matchTitle e.title cfg.match_logic = true
      · rw [processEntries_cons_hit_ok hseen hm hS]
        apply ih
        refine ⟨h1.trans (List.subset_append_left _ _), ?_, ?_, ?_, ?_⟩
        · intro hw
          obtain ⟨uids, hs, hl⟩ := h2 hw
          refine ⟨uids ++ [e.uid], ?_, ?_⟩
          · show st.seen ++ [e.uid] = seen0 ++ (uids ++ [e.uid])
            rw [hs, List.append_assoc]
          · show append_seen env.seenWriteOk st.seenLog e.uid =
              seenLogChunks (uids ++ [e.uid])
            rw [seenLogChunks_snoc, append_seen, if_pos hw, hl]
        · intro e' he'
          rcases List.mem_append.mp he' with h' | h'
          · exact List.mem_append_left _ (h3 e' h')
          · rw [List.mem_singleton.mp h']
            exact List.mem_append_right _ (List.mem_singleton.mpr rfl)
        · intro e' he'
          rcases List.mem_append.mp he' with h' | h'
          · exact h4 e' h'
          · rw [List.mem_singleton.mp h']
            exact fun hc => hseen (h1 hc)
        · intro u
          rw [countUid_append]
          by_cases hu : e.uid = u
          · have hzero : countUid u st.notified = 0 := by
              apply countUid_eq_zero
              intro e' he' hc
              exact hseen (hu ▸ hc ▸ h3 e' he')
            have hone : countUid u [e] ≤ 1 := by
              simp [countUid, List.filter, hu]
            omega
          · have hz : countUid u [e] = 0 := countUid_eq_zero u [e] (by simpa using hu)
            have := h5 u
            omega
      · rw [Bool.not_eq_true] at hm
        rw [processEntries_cons_nomatch hseen hm]
        apply ih
        refine ⟨h1.trans (List.subset_append_left _ _), ?_, ?_, h4, h5⟩
        · intro hw
          obtain ⟨uids, hs, hl⟩ := h2 hw
          refine ⟨uids ++ [e.uid], ?_, ?_⟩
          · show st.seen ++ [e.uid] = seen0 ++ (uids ++ [e.uid])
            rw [hs, List.append_assoc]
          · show append_seen env.seenWriteOk st.seenLog e.uid =
              seenLogChunks (uids ++ [e.uid])
            rw [seenLogChunks_snoc, append_seen, if_pos hw, hl]
        · intro e' he'
          exact List.mem_append_left _ (h3 e' he')

/-! ## Source-level and cycle-level lemmas -/

theorem processSource_checked (cfg : WdCfg) (env : Env) (st : RunState) (src : SourceCfg) :
    (processSource cfg env st src).checked =
      st.checked + (if src.url.isEmpty then 0 else 1) := by
  by_cases hurl : src.url.isEmpty = true
  · rw [processSource_empty_url hurl, hurl]
    simp
  · rw [Bool.not_eq_true] at hurl
    rw [hurl]
    cases hfetch : fetch (netFor env src.url) cfg.max_feed_bytes with
    | error msg =>
      rw [processSource_fetch_error hurl hfetch]
      simp
    | ok entries =>
      by_cases hpr : (st.seen.isEmpty && cfg.prime_on_first_run) = true
      · rw [processSource_ok_prime hurl hfetch hpr, prime_seen, primeFold_checked]
        simp
      · rw [Bool.not_eq_true] at hpr
        rw [processSource_ok_entries hurl hfetch hpr]
        have hch := processEntries_checked cfg env (entries.take 80)
          { st with checked := st.checked + 1,
                    latest := dictSet st.latest (strOr src.name "source")
                      ((entries.take 10).map as_public_item) }
        cases hpe : processEntries cfg env (entries.take 80)
            { st with checked := st.checked + 1,
                      latest := dictSet st.latest (strOr src.name "source")
                        ((entries.take 10).map as_public_item) } with
        | ok st1 =>
          rw [hpe] at hch
          simpa using hch
        | error p =>
          obtain ⟨msg, st1⟩ := p
          rw [hpe] at hch
          simpa using hch

theorem prime_seen_obs_setCL (env : Env) (entries : List Entry) (st : RunState)
    (c : Nat) (lerr : Option String) :
    obs (prime_seen env entries (setCL st c lerr)) = obs (prime_seen env entries st) := by
  rw [prime_seen, prime_seen, primeFold_setCL]
  rfl

theorem entriesMatch_obs_setCL (cfg : WdCfg) (env : Env) (l : List Entry)
    (st : RunState) (c : Nat) (lerr : Option String) (nm : String) :
    obs (match processEntries cfg env l (setCL st c lerr) with
         | .ok st1 => st1
         | .error (msg, st1) => { st1 with last_error := some (nm ++ ": " ++ msg) }) =
      obs (match processEntries cfg env l st with
           | .ok st1 => st1
           | .error (msg, st1) => { st1 with last_error := some (nm ++ ": " ++ msg) }) := by
  rw [processEntries_setCL]
  cases hpe : processEntries cfg env l st with
  | ok st1 =>
    simp only [hpe]
    rfl
  | error p =>
    obtain ⟨m, r⟩ := p
    simp only [hpe]
    rfl

theorem processSource_setCL_obs (cfg : WdCfg) (env : Env) (st : RunState)
    (c : Nat) (lerr : Option String) (src : SourceCfg) :
    obs (processSource cfg env (setCL st c lerr) src) =
      obs (processSource cfg env st src) := by
  by_cases hurl : src.url.isEmpty = true
  · rw [processSource_empty_url hurl, processSource_empty_url hurl]
    rfl
  · rw [Bool.not_eq_true] at hurl
    cases hfetch : fetch (netFor env src.url) cfg.max_feed_bytes with
    | error msg =>
      rw [processSource_fetch_error hurl hfetch, processSource_fetch_error hurl hfetch]
      rfl
    | ok entries =>
      by_cases hpr : (st.seen.isEmpty && cfg.prime_on_first_run) = true
      · have hpr2 : ((setCL st c lerr).seen.isEmpty && cfg.prime_on_first_run) = true := hpr
        rw [processSource_ok_prime hurl hfetch hpr2, processSource_ok_prime hurl hfetch hpr]
        exact prime_seen_obs_setCL env entries
          { st with checked := st.checked + 1,
                    latest := dictSet st.latest (strOr src.name "source")
                      ((entries.take 10).map as_public_item) } (c + 1) lerr
      · rw [Bool.not_eq_true] at hpr
        have hpr2 : ((setCL st c lerr).seen.isEmpty && cfg.prime_on_first_run) = false := hpr
        rw [processSource_ok_entries hurl hfetch hpr2, processSource_ok_entries hurl hfetch hpr]
        exact entriesMatch_obs_setCL cfg env (entries.take 80)
          { st with checked := st.checked + 1,
                    latest := dictSet st.latest (strOr src.name "source")
                      ((entries.take 10).map as_public_item) } (c + 1) lerr
          (strOr src.name "source")

theorem processSource_CycleInv (cfg : WdCfg) (env : Env) (seen0 : List String)
    (hS : env.statusWriteOk = true) (st : RunState) (src : SourceCfg)
    (h : CycleInv env.seenWriteOk seen0 st) :
    CycleInv env.seenWriteOk seen0 (processSource cfg env st src) := by
  by_cases hurl : src.url.isEmpty = true
  · rw [processSource_empty_url hurl]
    exact h
  · rw [Bool.not_eq_true] at hurl
    cases hfetch : fetch (netFor env src.url) cfg.max_feed_bytes with
    | error msg =>
      rw [processSource_fetch_error hurl hfetch]
      exact h
    | ok entries =>
      by_cases hpr : (st.seen.isEmpty && cfg.prime_on_first_run) = true
      · rw [processSource_ok_prime hurl hfetch hpr]
        exact primeFold_CycleInv env seen0 (entries.take 50) _ h
      · rw [Bool.not_eq_true] at hpr
        rw [processSource_ok_entries hurl hfetch hpr]
        have hinv := processEntries_CycleInv cfg env seen0 hS (entries.take 80)
          { st with checked := st.checked + 1,
                    latest := dictSet st.latest (strOr src.name "source")
                      ((entries.take 10).map as_public_item) } h
        cases hpe : processEntries cfg env (entries.take 80)
            { st with checked := st.checked + 1,
                      latest := dictSet st.latest (strOr src.name "source")
                        ((entries.take 10).map as_public_item) } with
        | ok st1 =>
          rw [hpe] at hinv
          simpa using hinv
        | error p =>
          obtain ⟨msg, st1⟩ := p
          rw [hpe] at hinv
          simpa using hinv

theorem runSources_obs_congr (cfg : WdCfg) (env : Env) :
    ∀ (l : List SourceCfg) (st st' : RunState), obs st = obs st' →
      obs (List.foldl (processSource cfg env) st l) =
        obs (List.foldl (processSource cfg env) st' l) := by
  intro l
  induction l with
  | nil => intro st st' h; simpa using h
  | cons s rest ih =>
    intro st st' h
    simp only [List.foldl_cons]
    apply ih
    rw [eq_setCL_of_obs_eq h]
    exact (processSource_setCL_obs cfg env st st'.checked st'.last_error s).symm

theorem runSources_checked (cfg : WdCfg) (env : Env) :
    ∀ (l : List SourceCfg) (st : RunState),
      (List.foldl (processSource cfg env) st l).checked = st.checked + checkedCount l := by
  intro l
  induction l with
  | nil => intro st; simp [checkedCount]
  | cons s rest ih =>
    intro st
    simp only [List.foldl_cons]
    rw [ih, processSource_checked]
    by_cases hs : s.url.isEmpty = true <;>
      simp [checkedCount, List.filter_cons, hs] <;> omega

theorem runSources_CycleInv (cfg : WdCfg) (env : Env) (seen0 : List String)
    (hS : env.statusWriteOk = true) :
    ∀ (l : List SourceCfg) (st : RunState), CycleInv env.seenWriteOk seen0 st →
      CycleInv env.seenWriteOk seen0 (List.foldl (processSource cfg env) st l) := by
  intro l
  induction l with
  | nil => intro st h; exact h
  | cons s rest ih =>
    intro st h
    simp only [List.foldl_cons]
    exact ih _ (processSource_CycleInv cfg env seen0 hS st s h)

/-- The cycle invariant holds for a whole run_once cycle. -/
theorem run_once_CycleInv (cfg : WdCfg) (env : Env) (seen0 : List String)
    (hS : env.statusWriteOk = true) :
    CycleInv env.seenWriteOk seen0 (run_once cfg env seen0) := by
  apply runSources_CycleInv cfg env seen0 hS
  refine ⟨List.Subset.refl _, fun _ => ⟨[], by simp, rfl⟩, ?_, ?_, ?_⟩
  · intro e he
    exact absurd he (List.not_mem_nil e)
  · intro e he
    exact absurd he (List.not_mem_nil e)
  · intro u
    simp [countUid]

/-! ## Dict merge lemmas -/

theorem dictGet_eq_none_of_keys_ne {α : Type} (k : String) :
    ∀ d : List (String × α), (∀ p ∈ d, (p.1 == k) = false) → dictGet d k = none := by
  intro d
  induction d with
  | nil => intro _; rfl
  | cons p rest ih =>
    intro h
    have hp := h p (List.mem_cons_self p rest)
    simp only [dictGet, hp, Bool.false_eq_true, if_false]
    exact ih (fun q hq => h q (List.mem_cons_of_mem p hq))

theorem dictGet_dictSet_self {α : Type} (d : List (String × α)) (k : String) (v : α) :
    dictGet (dictSet d k v) k = some v := by
  unfold dictSet
  by_cases hany : d.any (fun p => p.1 == k) = true
  · rw [if_pos hany]
    induction d with
    | nil => simp at hany
    | cons p rest ih =>
      by_cases hp : p.1 == k
      · simp [dictGet, hp]
      · rw [List.any_cons, Bool.or_eq_true] at hany
        rcases hany with h1 | h1
        · exact absurd h1 hp
        · rw [Bool.not_eq_true] at hp
          simpa [dictGet, hp] using ih h1
  · rw [if_neg hany]
    rw [Bool.not_eq_true, List.any_eq_false] at hany
    induction d with
    | nil => simp [dictGet]
    | cons p rest ih =>
      have hp : (p.1 == k) = false := by simpa using hany p (List.mem_cons_self p rest)
      simp only [List.cons_append, dictGet, hp, Bool.false_eq_true, if_false]
      exact ih (fun q hq => hany q (List.mem_cons_of_mem p hq))

theorem dictGet_dictSet_ne {α : Type} (d : List (String × α)) (k k' : String) (v : α)
    (h : k' ≠ k) : dictGet (dictSet d k v) k' = dictGet d k' := by
  have hkk' : (k == k') = false := beq_eq_false_iff_ne.mpr (fun hc => h hc.symm)
  unfold dictSet
  by_cases hany : d.any (fun p => p.1 == k) = true
  · rw [if_pos hany]
    clear hany
    induction d with
    | nil => rfl
    | cons p rest ih =>
      by_cases hp : p.1 == k
      · have hpk : (p.1 == k') = false := by
          rw [beq_iff_eq] at hp
          rw [hp]
          exact hkk'
        simpa [dictGet, hp, hkk', hpk] using ih
      · rw [Bool.not_eq_true] at hp
        by_cases hpk : p.1 == k'
        · simp [dictGet, hp, hpk]
        · rw [Bool.not_eq_true] at hpk
          simpa [dictGet, hp, hpk] using ih
  · rw [if_neg hany]
    clear hany
    induction d with
    | nil => simp [dictGet, hkk']
    | cons p rest ih =>
      by_cases hpk : p.1 == k'
      · simp [dictGet, hpk]
      · rw [Bool.not_eq_true] at hpk
        simpa [dictGet, hpk] using ih

theorem dictGet_dictUpdate_not_mem {α : Type} (upd : List (String × α)) :
    ∀ (base : List (String × α)) (k : String), (∀ p ∈ upd, p.1 ≠ k) →
      dictGet (dictUpdate base upd) k = dictGet base k := by
  induction upd with
  | nil => intro base k _; rfl
  | cons q rest ih =>
    intro base k h
    have hq : q.1 ≠ k := h q (List.mem_cons_self q rest)
    have hrest : ∀ p ∈ rest, p.1 ≠ k := fun p hp => h p (List.mem_cons_of_mem q hp)
    show dictGet (dictUpdate (dictSet base q.1 q.2) rest) k = dictGet base k
    rw [ih _ k hrest, dictGet_dictSet_ne _ _ _ _ (fun hc => hq hc.symm)]

theorem dictGet_dictUpdate_mem {α : Type} (upd : List (String × α)) :
    ∀ (base : List (String × α)) (k : String) (v : α),
      (upd.map Prod.fst).Nodup → (k, v) ∈ upd →
      dictGet (dictUpdate base upd) k = some v := by
  induction upd with
  | nil => intro base k v _ h; cases h
  | cons q rest ih =>
    intro base k v hnd hmem
    rw [List.map_cons, List.nodup_cons] at hnd
    rcases List.mem_cons.mp hmem with heq | hmem2
    · subst heq
      show dictGet (dictUpdate (dictSet base k v) rest) k = some v
      have hkey : ∀ p ∈ rest, p.1 ≠ k := by
        intro p hp hc
        apply hnd.1
        show k ∈ List.map Prod.fst rest
        rw [← hc]
        exact List.mem_map_of_mem Prod.fst hp
      rw [dictGet_dictUpdate_not_mem rest _ k hkey]
      exact dictGet_dictSet_self base k v
    · exact ih _ k v hnd.2 hmem2

/-- C7: update_status performs a shallow last-write-wins merge of the new
field set over the previous status (each new key overwrites the same-named
old key; untouched keys are preserved), and writes the result by writing a
temporary path and renaming it over the final path. -/
theorem C7_update_status_merge (statusFile : RawFile) (kwargs : List (String × Json))
    (hnd : (kwargs.map Prod.fst).Nodup) :
    (∀ k v, (k, v) ∈ kwargs →
      dictGet (update_status statusFile kwargs).1 k = some v) ∧
    (∀ k, (∀ p ∈ kwargs, p.1 ≠ k) →
      dictGet (update_status statusFile kwargs).1 k = dictGet (statusBase statusFile) k) ∧
    (update_status statusFile kwargs).2 =
      [FsOp.writeTmp (update_status statusFile kwargs).1, FsOp.renameTmpOverFinal] :=
  ⟨fun k v hmem => dictGet_dictUpdate_mem kwargs _ k v hnd hmem,
   fun k h => dictGet_dictUpdate_not_mem kwargs _ k h,
   rfl⟩

/-- Witness for C7: updating a two-field status with a new value for `b`
rewrites `b` and preserves `a`. -/
theorem C7_update_status_merge_witness :
    dictGet (update_status (.parsed (.obj [("a", Json.num 1), ("b", Json.num 2)]))
      [("b", Json.num 3)]).1 "b" = some (Json.num 3) ∧
    dictGet (update_status (.parsed (.obj [("a", Json.num 1), ("b", Json.num 2)]))
      [("b", Json.num 3)]).1 "a" =
      dictGet (statusBase (.parsed (.obj [("a", Json.num 1), ("b", Json.num 2)]))) "a" := by
  have h := C7_update_status_merge
    (.parsed (.obj [("a", Json.num 1), ("b", Json.num 2)])) [("b", Json.num 3)]
    (by simp)
  exact ⟨h.1 "b" (Json.num 3) (by simp), h.2.1 "a" (by simp)⟩

/-- C8: for an absent, unparseable, or non-object config file, load_config
returns (without failing — it is a total function) the default configuration
with enabled=true and an empty sources list. -/
theorem C8_load_config_defaults (f : RawFile) (h : brokenConfigFile f) :
    load_config f = defaultConfigDict ∧
    dictGet (load_config f) "enabled" = some (Json.bool true) ∧
    dictGet (load_config f) "sources" = some (Json.arr []) := by
  have hmain : load_config f = defaultConfigDict := by
    cases f with
    | absent => rfl
    | malformed => rfl
    | parsed v =>
      cases v with
      | obj fields => exact absurd h (by simp [brokenConfigFile, Json.isObj])
      | null => rfl
      | bool b => rfl
      | num n => rfl
      | str s => rfl
      | arr xs => rfl
  refine ⟨hmain, ?_, ?_⟩ <;> rw [hmain] <;> rfl

/-- Witness for C8 on an unparseable config file. -/
theorem C8_load_config_defaults_witness :
    load_config .malformed = defaultConfigDict :=
  (C8_load_config_defaults .malformed trivial).1

/-- C1 (code bug): the conversion
`int(cfg.get("check_interval_seconds") or 300)` at line 419 happens outside
the try/except that guards `run_once`, so a config whose
check_interval_seconds is a non-numeric string raises ValueError out of the
loop body and terminates main() — contradicting the claim (and the module's
own "never crashes" doc).  By contrast, with a numeric interval a cycle
whose run_once raises is caught and the loop continues with ok=false. -/
theorem C1_main_loop_crash :
    mainIter cfgNonNumericInterval false = .error "ValueError: invalid literal for int" ∧
    (∀ runRaises : Bool,
      mainIter (.parsed (.obj [("check_interval_seconds", Json.num 60)])) runRaises =
        .ok (.ranCycle 60 (!runRaises))) := by
  refine ⟨rfl, fun runRaises => ?_⟩
  cases runRaises <;> rfl

/-! ## Claims C3-C6 -/

/-- C3: the claim fails cycle-wide.  With two configured sources and an
empty seen set at the start of the cycle, the first source is primed, which
makes the seen set nonempty, so the second source is NOT primed: its
matching entry fires a notification in the same cycle (the code tests
`not seen` per source at line 371, not once at the start of the cycle). -/
theorem C3_priming_counterexample :
    (run_once cfgTwoSources envTwoSources []).notified = [entryBS] ∧
    (run_once cfgTwoSources envTwoSources []).hits = 1 := by
  constructor <;> decide

/-- C3 (amended): priming applies per source to each source reached while
the seen set is still empty at that moment.  In particular, for a cycle
with a single configured source whose fetch succeeds, starting from an
empty seen set with prime_on_first_run enabled, the cycle fires zero
notifications, counts zero hits, and marks every returned entry (up to 50)
as seen: the final in-memory seen set is some list of uids containing each
of them, and the seen-log file holds exactly those uids, each written as
`uid + "\n"`. -/
theorem C3_priming_amended (cfg : WdCfg) (env : Env) (src : SourceCfg)
    (len : Nat) (es : List Entry)
    (hsrc : cfg.sources = [src])
    (hprime : cfg.prime_on_first_run = true)
    (hurl : src.url.isEmpty = false)
    (hnet : netFor env src.url = .resp len es)
    (hfit : len ≤ cfg.max_feed_bytes)
    (hW : env.seenWriteOk = true) :
    (run_once cfg env []).notified = [] ∧
    (run_once cfg env []).hits = 0 ∧
    (∀ e ∈ es.take 50, e.uid ∈ (run_once cfg env []).seen) ∧
    (∃ uids : List String, (run_once cfg env []).seen = uids ∧
      (run_once cfg env []).seenLog = seenLogChunks uids ∧
      ∀ e ∈ es.take 50, e.uid ∈ uids) := by
  have hfetch : fetch (netFor env src.url) cfg.max_feed_bytes = Except.ok es := by
    rw [hnet]
    simp only [fetch]
    rw [if_neg]
    omega
  unfold run_once
  rw [hsrc]
  simp only [List.foldl_cons, List.foldl_nil]
  rw [processSource_ok_prime hurl hfetch (by simp [hprime])]
  rw [prime_seen]
  refine ⟨?_, ?_, ?_, ?_⟩
  · rw [primeFold_notified]
  · rw [primeFold_hits]
  · intro e he
    exact primeFold_mem env (es.take 50) _ e he
  · have hinv := primeFold_CycleInv env [] (es.take 50)
      { seen := [], checked := 0 + 1,
        latest := dictSet [] (strOr src.name "source")
          ((es.take 10).map as_public_item) }
      ⟨List.nil_subset _, fun _ => ⟨[], rfl, rfl⟩,
       fun e he => absurd he (List.not_mem_nil e),
       fun e he => absurd he (List.not_mem_nil e),
       fun u => by simp [countUid]⟩
    obtain ⟨uids, hs, hl⟩ := hinv.2.1 hW
    refine ⟨uids, ?_, hl, ?_⟩
    · rw [hs]
      exact List.nil_append uids
    · intro e he
      have hm := primeFold_mem env (es.take 50)
        { seen := [], checked := 0 + 1,
          latest := dictSet [] (strOr src.name "source")
            ((es.take 10).map as_public_item) } e he
      rw [hs] at hm
      simpa using hm

/-- Witness for the amended C3 on a concrete one-source cycle: the
matching backlog entry is primed, not notified. -/
theorem C3_priming_amended_witness :
    (run_once cfgPrimeOne envPrimeOne []).notified = [] ∧
    "u2" ∈ (run_once cfgPrimeOne envPrimeOne []).seen := by
  have h := C3_priming_amended cfgPrimeOne envPrimeOne srcW1 10 [entryBS]
    rfl rfl rfl rfl (by decide) rfl
  exact ⟨h.1, h.2.2.1 entryBS (by decide)⟩

/-- C4: the claim fails as stated, because the seen store is a flat text
file: append_seen writes `uid + "\n"` and load_seen reads it back with
splitlines(), so a uid containing an interior newline -- reachable, since
the uid chain falls back to the entry title -- is stored as several lines,
never matches itself on reload, and the very same entry is notified again
in the next cycle.  Concretely: one source, one entry whose uid is
"a\nb"; both consecutive cycles succeed fully (all writes ok), yet the
uid is notified twice. -/
theorem C4_dedup_counterexample :
    countUid "a\nb" ((run_once cfgOneSource envNL (load_seen "")).notified ++
      (run_once cfgOneSource envNL (load_seen ("" ++
        (run_once cfgOneSource envNL (load_seen "")).seenLog))).notified) = 2 := by
  decide

/-- C4 (amended): for a uid without line-boundary characters (which
guid- and link-derived uids are), the dedup guarantee holds: across two
consecutive cycles (arbitrary configs, a working seen store in the first
cycle and working status writes in both, the store holding the one-per-line
encoding of any earlier uids), at most one notification is fired for that
uid: once processed it is recorded as one line of the seen store, and the
later cycle reads it back and skips it before matching. -/
theorem C4_dedup_across_cycles (cfg1 cfg2 : WdCfg) (env1 env2 : Env)
    (store0 : List String) (u : String)
    (hS1 : env1.statusWriteOk = true) (hW1 : env1.seenWriteOk = true)
    (hS2 : env2.statusWriteOk = true)
    (hu : ∀ c ∈ u.data, isLineBreak c = false) :
    countUid u ((run_once cfg1 env1 (load_seen (seenLogChunks store0))).notified ++
      (run_once cfg2 env2 (load_seen (seenLogChunks store0 ++
        (run_once cfg1 env1 (load_seen (seenLogChunks store0))).seenLog))).notified)
      ≤ 1 := by
  have h1 := run_once_CycleInv cfg1 env1 (load_seen (seenLogChunks store0)) hS1
  have h2 := run_once_CycleInv cfg2 env2
    (load_seen (seenLogChunks store0 ++
      (run_once cfg1 env1 (load_seen (seenLogChunks store0))).seenLog)) hS2
  rw [countUid_append]
  rcases Nat.eq_zero_or_pos
      (countUid u (run_once cfg1 env1 (load_seen (seenLogChunks store0))).notified)
    with hz | hpos
  · rw [hz]
    simpa using h2.2.2.2.2 u
  · obtain ⟨e, he, heu⟩ := countUid_pos u _ hpos
    have huseen : u ∈ (run_once cfg1 env1 (load_seen (seenLogChunks store0))).seen :=
      heu ▸ h1.2.2.1 e he
    have hunot : u ∉ load_seen (seenLogChunks store0) := heu ▸ h1.2.2.2.1 e he
    obtain ⟨uids, hseen1, hlog1⟩ := h1.2.1 hW1
    have huuids : u ∈ uids := by
      rw [hseen1] at huseen
      rcases List.mem_append.mp huseen with h | h
      · exact absurd h hunot
      · exact h
    have huB : u ∈ load_seen (seenLogChunks store0 ++
        (run_once cfg1 env1 (load_seen (seenLogChunks store0))).seenLog) := by
      rw [hlog1, ← seenLogChunks_append]
      unfold load_seen
      rw [List.mem_dedup]
      exact mem_splitLines_chunks u hu (store0 ++ uids) (List.mem_append_right _ huuids)
    have hz2 : countUid u (run_once cfg2 env2 (load_seen (seenLogChunks store0 ++
        (run_once cfg1 env1 (load_seen (seenLogChunks store0))).seenLog))).notified
        = 0 := by
      apply countUid_eq_zero
      intro e2 he2 hc
      exact (h2.2.2.2.1 e2 he2) (hc ▸ huB)
    rw [hz2]
    have hle := h1.2.2.2.2 u
    omega

/-- Witness for the amended C4: two consecutive one-source cycles over the
same feed data, for a newline-free uid. -/
theorem C4_dedup_across_cycles_witness :
    countUid "u2" ((run_once cfgOneSource envOneOk
        (load_seen (seenLogChunks []))).notified ++
      (run_once cfgOneSource envOneOk (load_seen (seenLogChunks [] ++
        (run_once cfgOneSource envOneOk
          (load_seen (seenLogChunks []))).seenLog))).notified) ≤ 1 :=
  C4_dedup_across_cycles cfgOneSource cfgOneSource envOneOk envOneOk [] "u2"
    rfl rfl rfl (by decide)

/-- The entry loop does not read cfg.sources. -/
theorem processEntries_sources_irrel (cfg : WdCfg) (s2 : List SourceCfg) (env : Env) :
    ∀ (l : List Entry) (st : RunState),
      processEntries { cfg with sources := s2 } env l st = processEntries cfg env l st := by
  intro l
  induction l with
  | nil => intro st; rfl
  | cons e rest ih =>
    intro st
    by_cases hseen : e.uid ∈ st.seen
    · rw [processEntries_cons_seen hseen, processEntries_cons_seen hseen, ih]
    · by_cases hm : matchTitle e.title cfg.match_logic = true
      · have hm2 : matchTitle e.title ({ cfg with sources := s2 } : WdCfg).match_logic = true := hm
        by_cases hS : env.statusWriteOk = true
        · rw [processEntries_cons_hit_ok hseen hm2 hS,
            processEntries_cons_hit_ok hseen hm hS, ih]
        · rw [Bool.not_eq_true] at hS
          rw [processEntries_cons_hit_fail hseen hm2 hS,
            processEntries_cons_hit_fail hseen hm hS]
      · rw [Bool.not_eq_true] at hm
        have hm2 : matchTitle e.title ({ cfg with sources := s2 } : WdCfg).match_logic = false := hm
        rw [processEntries_cons_nomatch hseen hm2, processEntries_cons_nomatch hseen hm, ih]

/-- The per-source step does not read cfg.sources. -/
theorem processSource_sources_irrel (cfg : WdCfg) (s2 : List SourceCfg) (env : Env)
    (st : RunState) (src2 : SourceCfg) :
    processSource { cfg with sources := s2 } env st src2 =
      processSource cfg env st src2 := by
  by_cases hurl : src2.url.isEmpty = true
  · rw [processSource_empty_url hurl, processSource_empty_url hurl]
  · rw [Bool.not_eq_true] at hurl
    cases hfetch : fetch (netFor env src2.url) cfg.max_feed_bytes with
    | error msg =>
      have hfetch2 : fetch (netFor env src2.url)
          ({ cfg with sources := s2 } : WdCfg).max_feed_bytes = Except.error msg := hfetch
      rw [processSource_fetch_error hurl hfetch2, processSource_fetch_error hurl hfetch]
    | ok entries =>
      have hfetch2 : fetch (netFor env src2.url)
          ({ cfg with sources := s2 } : WdCfg).max_feed_bytes = Except.ok entries := hfetch
      by_cases hpr : (st.seen.isEmpty && cfg.prime_on_first_run) = true
      · have hpr2 : (st.seen.isEmpty &&
            ({ cfg with sources := s2 } : WdCfg).prime_on_first_run) = true := hpr
        rw [processSource_ok_prime hurl hfetch2 hpr2, processSource_ok_prime hurl hfetch hpr]
      · rw [Bool.not_eq_true] at hpr
        have hpr2 : (st.seen.isEmpty &&
            ({ cfg with sources := s2 } : WdCfg).prime_on_first_run) = false := hpr
        rw [processSource_ok_entries hurl hfetch2 hpr2,
          processSource_ok_entries hurl hfetch hpr, processEntries_sources_irrel]

theorem checkedCount_append (l1 l2 : List SourceCfg) :
    checkedCount (l1 ++ l2) = checkedCount l1 + checkedCount l2 := by
  simp [checkedCount, List.filter_append]

/-- C5: a source whose payload exceeds max_feed_bytes fails its fetch: the
per-source step changes nothing but the checked counter (incremented) and
last_error (set to "name: feed_too_large"); consequently a full cycle with
that source behaves on all cycle observables (seen set, seen log, hits,
notifications, latest items) exactly like the cycle without it, with one
more checked source. -/
theorem C5_oversized_payload_isolated (cfg : WdCfg) (env : Env)
    (pre post : List SourceCfg) (src : SourceCfg) (seen0 : List String)
    (len : Nat) (es : List Entry)
    (hurl : src.url.isEmpty = false)
    (hnet : netFor env src.url = .resp len es)
    (hbig : cfg.max_feed_bytes < len) :
    (∀ st : RunState, processSource cfg env st src =
      setCL st (st.checked + 1)
        (some (strOr src.name "source" ++ ": feed_too_large"))) ∧
    obs (run_once { cfg with sources := pre ++ src :: post } env seen0) =
      obs (run_once { cfg with sources := pre ++ post } env seen0) ∧
    (run_once { cfg with sources := pre ++ src :: post } env seen0).checked =
      (run_once { cfg with sources := pre ++ post } env seen0).checked + 1 := by
  have hsrcG : ∀ (cfgX : WdCfg), cfgX.max_feed_bytes = cfg.max_feed_bytes →
      ∀ st : RunState, processSource cfgX env st src =
        setCL st (st.checked + 1)
          (some (strOr src.name "source" ++ ": feed_too_large")) := by
    intro cfgX hmax st
    have hfetch : fetch (netFor env src.url) cfgX.max_feed_bytes =
        Except.error "feed_too_large" := by
      rw [hnet, hmax]
      simp only [fetch]
      rw [if_pos]
      omega
    rw [processSource_fetch_error hurl hfetch]
    have hmsg : strOr src.name "source" ++ ": " ++ "feed_too_large" =
        strOr src.name "source" ++ ": feed_too_large" := by
      rw [String.append_assoc]
      rfl
    rw [hmsg]
    rfl
  have hirrel : ∀ s2 : List SourceCfg,
      processSource { cfg with sources := s2 } env = processSource cfg env := by
    intro s2
    funext st2 src2
    exact processSource_sources_irrel cfg s2 env st2 src2
  refine ⟨hsrcG cfg rfl, ?_, ?_⟩
  · unfold run_once
    rw [show ({ cfg with sources := pre ++ src :: post } : WdCfg).sources =
        pre ++ src :: post from rfl,
      show ({ cfg with sources := pre ++ post } : WdCfg).sources =
        pre ++ post from rfl,
      hirrel (pre ++ src :: post), hirrel (pre ++ post)]
    rw [List.foldl_append, List.foldl_append]
    simp only [List.foldl_cons]
    rw [hsrcG cfg rfl]
    apply runSources_obs_congr
    exact obs_setCL _ _ _
  · unfold run_once
    rw [show ({ cfg with sources := pre ++ src :: post } : WdCfg).sources =
        pre ++ src :: post from rfl,
      show ({ cfg with sources := pre ++ post } : WdCfg).sources =
        pre ++ post from rfl,
      hirrel (pre ++ src :: post), hirrel (pre ++ post)]
    rw [runSources_checked, runSources_checked, checkedCount_append, checkedCount_append]
    have hcc : checkedCount (src :: post) = 1 + checkedCount post := by
      simp [checkedCount, List.filter_cons, hurl, Nat.add_comm]
    rw [hcc]
    omega

/-- Witness for C5 at a concrete two-source cycle whose first source
returns 101 bytes against a 100-byte cap. -/
theorem C5_oversized_payload_isolated_witness :
    obs (run_once { cfgC5 with sources := [srcBig, srcW1] } envC5 []) =
      obs (run_once { cfgC5 with sources := [srcW1] } envC5 []) ∧
    (run_once { cfgC5 with sources := [srcBig, srcW1] } envC5 []).checked =
      (run_once { cfgC5 with sources := [srcW1] } envC5 []).checked + 1 := by
  have h := C5_oversized_payload_isolated cfgC5 envC5 [] [srcW1] srcBig [] 101 []
    rfl rfl (by decide)
  exact ⟨h.2.1, h.2.2⟩

/-- C6: the claim fails for status-file writes.  With failing status writes
during the hit path, the matched entry is notified but the IOError raised
by update_status aborts the source: the entry's uid is never marked seen
and the source's remaining entries are skipped; the error lands in
last_error. -/
theorem C6_swallow_counterexample :
    (run_once cfgOneSource envStatusFail []).notified = [entryBS] ∧
    "u2" ∉ (run_once cfgOneSource envStatusFail []).seen ∧
    "u3" ∉ (run_once cfgOneSource envStatusFail []).seen ∧
    (run_once cfgOneSource envStatusFail []).last_error = some "s1: IOError" := by
  refine ⟨by decide, by decide, by decide, by decide⟩

/-- C6 (amended): a notification-delivery failure or a seen-log write
failure is swallowed and never prevents marking the uid seen nor
processing the source's remaining entries (the entry loop completes and
every processed uid lands in the in-memory seen set, for every delivery
and seen-log-write behavior); a status-file write failure during hit
handling, however, escapes: the matched entry stays unmarked and the rest
of the source is skipped, the error being recorded at the per-source
boundary. -/
theorem C6_hit_failures_amended :
    (∀ (cfg : WdCfg) (env : Env) (es : List Entry) (st : RunState),
      env.statusWriteOk = true →
      ∃ st2, processEntries cfg env es st = .ok st2 ∧
        st.seen ⊆ st2.seen ∧ ∀ e ∈ es, e.uid ∈ st2.seen) ∧
    (∀ (cfg : WdCfg) (env : Env) (e : Entry) (rest : List Entry) (st : RunState),
      env.statusWriteOk = false → e.uid ∉ st.seen →
      matchTitle e.title cfg.match_logic = true →
      processEntries cfg env (e :: rest) st =
        .error ("IOError",
          { st with hits := st.hits + 1, notified := st.notified ++ [e] })) :=
  ⟨fun cfg env es st hS => processEntries_ok_mem cfg env hS es st,
   fun _ _ _ _ _ hS hseen hm => processEntries_cons_hit_fail hseen hm hS⟩

/-- Witness for the amended C6: both halves at concrete inputs. -/
theorem C6_hit_failures_amended_witness :
    (∃ st2, processEntries cfgOneSource envOneOk [entryBS, entryBS3]
        { seen := [] } = .ok st2 ∧
      ({ seen := [] } : RunState).seen ⊆ st2.seen ∧
      ∀ e ∈ [entryBS, entryBS3], e.uid ∈ st2.seen) ∧
    processEntries cfgOneSource envStatusFail [entryBS, entryBS3] { seen := [] } =
      .error ("IOError",
        { ({ seen := [] } : RunState) with hits := 0 + 1, notified := [] ++ [entryBS] }) :=
  ⟨C6_hit_failures_amended.1 cfgOneSource envOneOk [entryBS, entryBS3]
      { seen := [] } rfl,
   C6_hit_failures_amended.2 cfgOneSource envStatusFail entryBS [entryBS3]
      { seen := [] } rfl (by decide) (by decide)⟩

/-! ## Claim C9: the parser on well-formed RSS -/

theorem strOr_ne_empty (a b : String) (hb : b ≠ "") : strOr a b ≠ "" := by
  unfold strOr
  by_cases ha : a.isEmpty = true
  · rw [if_pos ha]
    exact hb
  · rw [if_neg ha]
    intro hc
    rw [Bool.not_eq_true] at ha
    rw [hc] at ha
    cases ha

/-- C9: for a well-formed RSS document whose strict parse yields a tree
with N item elements, parse_feed returns exactly N entries, one per item
in document order, each with a nonempty title (placeholder when the item
has no title) and a nonempty uid (guid/id, falling back to link, then
title); in particular, with zero items (and, as in any RSS document, no
Atom entry elements) it returns zero entries. -/
theorem C9_parser_rss :
    (∀ (root : XmlNode) (source : String), rssItems root ≠ [] →
      parse_feed_xml root source = (rssItems root).map (rssEntryOf source) ∧
      (parse_feed_xml root source).length = (rssItems root).length ∧
      ∀ e ∈ parse_feed_xml root source, e.title ≠ "" ∧ e.uid ≠ "") ∧
    (∀ (root : XmlNode) (source : String), rssItems root = [] →
      findallDesc root (.anyNs "entry") = [] →
      parse_feed_xml root source = []) := by
  constructor
  · intro root source hitems
    have hcond : (rssItems root).isEmpty = false := by
      cases hr : rssItems root with
      | nil => exact absurd hr hitems
      | cons a l => rfl
    have heq : parse_feed_xml root source = (rssItems root).map (rssEntryOf source) := by
      simp only [parse_feed_xml]
      rw [hcond]
      rfl
    refine ⟨heq, by rw [heq, List.length_map], ?_⟩
    intro e he
    rw [heq, List.mem_map] at he
    obtain ⟨it, -, rfl⟩ := he
    have htitle : strOr (find_first_text it [.plain "title", .anyNs "title"])
        "(no title)" ≠ "" :=
      strOr_ne_empty _ _ (by decide)
    exact ⟨htitle, strOr_ne_empty _ _ htitle⟩
  · intro root source hitems hentries
    simp only [parse_feed_xml]
    rw [hitems, hentries]
    rfl

/-- Witness for C9 on a concrete one-item RSS tree. -/
theorem C9_parser_rss_witness :
    (parse_feed_xml rootW "rbb24").length = (rssItems rootW).length ∧
    ∀ e ∈ parse_feed_xml rootW "rbb24", e.title ≠ "" ∧ e.uid ≠ "" := by
  have hne : rssItems rootW ≠ [] := by
    rw [show rssItems rootW = [itemW] from rfl]
    exact List.cons_ne_nil _ _
  have h := C9_parser_rss.1 rootW "rbb24" hne
  exact ⟨h.2.1, h.2.2⟩

end PW
